import Mathlib

/-!
# Verification of the rql query parser (a8m/rql)

Shallow embedding of `rql.go` / `config.go`: the recursive filter-expression
compiler, the top-level `ParseQuery` assembler, the sort builder, the default
column-name derivation, and the default validators/converters.

Modelling conventions:
* Go's decoded JSON (`interface{}` holding `float64`, `string`, `bool`, `nil`,
  `[]interface{}`, `map[string]interface{}`) is the inductive `Value`.  JSON
  numbers (`float64`) are modelled as rationals; every IEEE double is a
  rational and the operations the code performs on them (`math.Trunc`
  equality, sign test, `int(...)` truncation) are exact, so the model is
  faithful on all representable inputs.  Objects are ordered association
  lists: a determinization of Go's unordered map iteration.
* The panic/recover control flow of `ParseQuery` is modelled with
  `Except Failure`: a `*ParseError` panic (`expect` / `must`) becomes
  `Failure.parseErr msg` (recovered by `ParseQuery`, which returns it with a
  nil `Params`), and any other runtime panic becomes `Failure.runtimePanic`,
  which models a panic that the `recover` handler re-raises, i.e. `ParseQuery`
  never returns on such inputs.
* Schemas are given directly as a list of `Field`s (column name, flags,
  supported operator tokens, type kind); the reflection-based schema builder
  (`Parser.init`/`parseField`) is not part of any claim's code path.  The
  per-kind validators and converters are the defaults of `GetValidateFn` /
  `GetConverterFn` for the scalar kinds (bool, string, int, uint, float).
* `Column` works on `List Char` with the ASCII case predicates; the Go code
  classifies each *byte* with the unicode predicates, which coincides with
  this model on ASCII identifiers (on multi-byte identifiers the Go code
  itself garbles runes byte by byte).
-/

namespace Rql

/-- Decoded JSON value (`interface{}` after `encoding/json` decoding). -/
inductive Value : Type where
  | num (q : ℚ)
  | str (s : String)
  | bool (b : Bool)
  | null
  | arr (elems : List Value)
  | obj (entries : List (String × Value))

/-- Outcome of a panic inside the parse: a `*ParseError` (recovered and
returned by `ParseQuery`), or any other runtime panic, which the `recover`
handler in `ParseQuery` re-raises so that the call never returns. -/
inductive Failure : Type where
  | parseErr (msg : String)
  | runtimePanic
deriving DecidableEq

/-- A value placed into `Params.FilterArgs`: either the raw JSON value
(`valueFn`, the nop converter) or a Go `int` produced by `convertInt`.
`intOutOfRange q` is the marker for the *implementation-defined* `int`
result of converting a float whose truncation does not fit the 64-bit
`int` range (gc/amd64 yields the indefinite value `-2^63`, arm64
saturates).  The development assumes nothing about this value except
that, being a 64-bit `int`, it cannot equal an out-of-range mathematical
integer — the only disequality any theorem below draws from it. -/
inductive Arg : Type where
  | raw (v : Value)
  | int (n : ℤ)
  | intOutOfRange (q : ℚ)

/-- `reflect.TypeOf(v).Kind().String()` for the decoded JSON values
(with `nil` for an untyped nil interface), as used by `errorType`. -/
def kindString : Value → String
  | .num _ => "float64"
  | .str _ => "string"
  | .bool _ => "bool"
  | .null => "nil"
  | .arr _ => "slice"
  | .obj _ => "map"

/-- `errorType` (rql.go): the expected-vs-actual type error message. -/
def errorType (v : Value) (expected : String) : String :=
  "expect <" ++ expected ++ ">, got <" ++ kindString v ++ ">"

/-- `validateBool` (rql.go). -/
def validateBool (_op : String) (v : Value) : Option String :=
  match v with
  | .bool _ => none
  | _ => some (errorType v "bool")

/-- `validateString` (rql.go). -/
def validateString (_op : String) (v : Value) : Option String :=
  match v with
  | .str _ => none
  | _ => some (errorType v "string")

/-- `validateFloat` (rql.go). -/
def validateFloat (_op : String) (v : Value) : Option String :=
  match v with
  | .num _ => none
  | _ => some (errorType v "float64")

/-- `validateInt` (rql.go): the value must be a JSON number with
`math.Trunc(n) == n`, i.e. a rational with denominator 1. -/
def validateInt (_op : String) (v : Value) : Option String :=
  match v with
  | .num n => if n.den ≠ 1 then some "not an integer" else none
  | _ => some (errorType v "int")

/-- `validateUInt` (rql.go): `validateInt`, then reject negative numbers. -/
def validateUInt (op : String) (v : Value) : Option String :=
  match validateInt op v with
  | some e => some e
  | none =>
    match v with
    | .num n => if n < 0 then some "not an unsigned integer" else none
    | _ => none

/-- Truncation toward zero of a `float64`'s value (exact on the rational
model). -/
def gotrunc (q : ℚ) : ℤ := q.num.tdiv (q.den : ℤ)

/-- The bounds of Go's `int` on the 64-bit platforms the module targets. -/
def intMin : ℤ := -(2 ^ 63)

/-- See `intMin`. -/
def intMax : ℤ := 2 ^ 63 - 1

/-- `convertInt` (rql.go): `int(v.(float64))`.  When the truncated value
fits Go's 64-bit `int`, the conversion is exact truncation toward zero;
otherwise the Go result is implementation-defined (see `Arg.intOutOfRange`).
`none` models the runtime panic of the type assertion on a non-number
(unreachable after a successful `validateInt`/`validateUInt`). -/
def convertInt (_op : String) (v : Value) : Option Arg :=
  match v with
  | .num q =>
    if intMin ≤ gotrunc q ∧ gotrunc q ≤ intMax then some (.int (gotrunc q))
    else some (.intOutOfRange q)
  | _ => none

/-- `valueFn` (rql.go): the nop converter. -/
def valueFn (_op : String) (v : Value) : Option Arg := some (.raw v)

/-- The type kind of a field, restricted to the scalar kinds whose default
validators/converters the claims exercise. -/
inductive Kind : Type where
  | kbool
  | kstr
  | kint
  | kuint
  | kfloat
deriving DecidableEq

/-- `GetValidateFn` (rql.go), restricted to the modelled kinds. -/
def Kind.validateFn : Kind → String → Value → Option String
  | .kbool => validateBool
  | .kstr => validateString
  | .kint => validateInt
  | .kuint => validateUInt
  | .kfloat => validateFloat

/-- `GetConverterFn` (rql.go), restricted to the modelled kinds. -/
def Kind.convertFn : Kind → String → Value → Option Arg
  | .kbool => valueFn
  | .kstr => valueFn
  | .kint => convertInt
  | .kuint => convertInt
  | .kfloat => valueFn

/-- `Field`/`FieldMeta` (rql.go): the column name (the key under which
`parseField` stores the field, `p.fields[f.Name] = f`), the `sort`/`filter`
flags, the supported operator tokens (stored with the operator prefix, as
built by `parseField`: `f.FilterOps[p.op(op)] = true`), and the type kind
that determines the default validator and converter. -/
structure Field : Type where
  name : String
  sortable : Bool := false
  filterable : Bool := false
  filterOps : List String := []
  kind : Kind
deriving DecidableEq

/-- The parser configuration after `Config.defaults` (config.go), restricted
to the fields the claims exercise.  `opMark` is the `OpPrefix` option
(default `"$"`); `fieldSep` is `FieldSep` (default `"_"`, and never empty
after `defaultString(&c.FieldSep, DefaultFieldSep)`). -/
structure Parser : Type where
  opMark : String := "$"
  fieldSep : String := "_"
  fields : List Field
  defaultLimit : ℤ := 25
  limitMaxValue : ℤ := 100
  defaultSort : List String := []

/-- `opFormat` (config.go): the operator catalog's default SQL rendering;
a missing key yields Go's zero value `""`.

Modelled from the spec: the default value of the `GetDBOp` dialect hook used
by `parseState.relOp` and `Parser.fmtOp` is absent from `src/` (config.go
only carries the catalog table `opFormat` and the analogous `GetDBStatement`
default, which returns `opFormat[o]`); per the spec's Operator Catalog /
Dialect sections the default hook renders an operator by this catalog
lookup. -/
def opFormat (op : String) : String :=
  if op = "eq" then "="
  else if op = "neq" then "<>"
  else if op = "lt" then "<"
  else if op = "gt" then ">"
  else if op = "lte" then "<="
  else if op = "gte" then ">="
  else if op = "like" then "LIKE"
  else if op = "or" then "OR"
  else if op = "and" then "AND"
  else ""

/-- `sortDirection` (config.go) as used by the default `GetDBDir`:
`'+' ↦ "asc"`, `'-' ↦ "desc"`, anything else the map zero value `""`. -/
def sortDirection (d : Char) : String :=
  if d = '+' then "asc" else if d = '-' then "desc" else ""

/-- `Parser.op` (rql.go): prefix an operator name with the operator prefix. -/
def Parser.op (p : Parser) (o : String) : String := p.opMark ++ o

/-- `p.fields[k]` (first binding wins; the Go map has unique keys). -/
def Parser.lookupField (p : Parser) (k : String) : Option Field :=
  p.fields.find? (fun f => f.name = k)

/-- `strings.Replace(s, sep, rep, -1)`: replace every non-overlapping
occurrence of `sep`, scanning left to right.  The `Nat` argument counts
characters still to skip after an accepted match.  (For the empty `sep` Go
would instead insert `rep` at every boundary; that case is unreachable
because `Config.defaults` replaces an empty `FieldSep` with `"_"`.) -/
def replaceScan (sep rep : List Char) : List Char → Nat → List Char
  | [], _ => []
  | _ :: rest, skip+1 => replaceScan sep rep rest skip
  | c :: rest, 0 =>
    if sep ≠ [] ∧ sep.isPrefixOf (c :: rest) then
      rep ++ replaceScan sep rep rest (sep.length - 1)
    else c :: replaceScan sep rep rest 0

/-- `Parser.colName` (rql.go): rewrite the configured field separator to the
default `"_"` unless it already is the default. -/
def Parser.colName (p : Parser) (field : String) : String :=
  if p.fieldSep ≠ "_" then
    String.mk (replaceScan p.fieldSep.data "_".data field.data 0)
  else field

/-- `Parser.fmtOp` (rql.go): `colName + " " + GetDBOp(op) + " ?"`. -/
def Parser.fmtOp (p : Parser) (f : Field) (op : String) : String :=
  p.colName f.name ++ " " ++ opFormat op ++ " ?"

/-- `parseState` (rql.go): the append-only expression buffer and the
argument list built alongside it. -/
structure PState : Type where
  buf : List Char
  values : List Arg

/-- `WriteString`/`WriteByte` on the buffer (the buffer is modelled as the
character list underlying the built string). -/
def PState.write (st : PState) (s : String) : PState :=
  { st with buf := st.buf ++ s.data }

/-- `p.values = append(p.values, arg)`. -/
def PState.push (st : PState) (a : Arg) : PState :=
  { st with values := st.values ++ [a] }

/-- The fresh state `newParseState` hands to `ParseQuery`. -/
def emptyState : PState := { buf := [], values := [] }

/-- One iteration of the operator-object loop in `parseState.field`
(rql.go): write the `" AND "` separator when not first, slice the operator
name (`op := Op(opName[1:])` — slicing an empty key raises a runtime panic
*before* the membership check), check membership in `f.FilterOps`, validate,
emit the formatted predicate, convert and append the argument. -/
def fieldTerm (p : Parser) (f : Field) (st : PState) (first : Bool)
    (opName : String) (opVal : Value) : Except Failure PState :=
  let st1 := if first then st else st.write " AND "
  if opName.length = 0 then .error .runtimePanic
  else
    let op := opName.drop 1
    if opName ∈ f.filterOps then
      match f.kind.validateFn op opVal with
      | some e =>
        .error (.parseErr ("invalid datatype or format for field \"" ++ f.name ++ "\": " ++ e))
      | none =>
        let st2 := st1.write (p.fmtOp f op)
        match f.kind.convertFn op opVal with
        | some a => .ok (st2.push a)
        | none => .error .runtimePanic
    else
      .error (.parseErr ("can not apply op \"" ++ opName ++ "\" on field \"" ++ f.name ++ "\""))

/-- The operator-object loop of `parseState.field` over the (ordered)
entries of the term map. -/
def fieldTerms (p : Parser) (f : Field) (st : PState) (first : Bool) :
    List (String × Value) → Except Failure PState
  | [] => .ok st
  | (k, v) :: rest =>
    match fieldTerm p f st first k v with
    | .error e => .error e
    | .ok st1 => fieldTerms p f st1 false rest

/-- The default-equality shorthand block of `parseState.field` (rql.go),
taken when the value is not an object: validate under `eq`, emit the
formatted predicate, convert and append the argument. -/
def fieldShort (p : Parser) (f : Field) (st : PState) (v : Value) : Except Failure PState :=
  match f.kind.validateFn "eq" v with
  | some e => .error (.parseErr ("invalid datatype for field \"" ++ f.name ++ "\": " ++ e))
  | none =>
    let st1 := st.write (p.fmtOp f "eq")
    match f.kind.convertFn "eq" v with
    | some a => .ok (st1.push a)
    | none => .error .runtimePanic

/-- `parseState.field` (rql.go).  A non-object value is the equality
shorthand (`fieldShort`; the subsequent loop over a nil map does nothing);
an object is the operator-object loop, with the group parenthesized when
it has more than one entry. -/
def fieldExp (p : Parser) (f : Field) (st : PState) (v : Value) : Except Failure PState :=
  match v with
  | .obj terms =>
    let st1 := if terms.length > 1 then st.write "(" else st
    match fieldTerms p f st1 true terms with
    | .error e => .error e
    | .ok st2 => .ok (if terms.length > 1 then st2.write ")" else st2)
  | _ => fieldShort p f st v

mutual

/-- `parseState.and` (rql.go) over the ordered entries of the filter map:
join successive entries with `" AND "` and dispatch each key: the `$or`
marker, the `$and` marker, a schema field (which must be filterable), or an
unrecognized-key error. -/
def andExp (p : Parser) (first : Bool) (st : PState) :
    List (String × Value) → Except Failure PState
  | [] => .ok st
  | (k, v) :: rest =>
    let st1 := if first then st else st.write " AND "
    match keyExp p st1 k v with
    | .error e => .error e
    | .ok st2 => andExp p false st2 rest

/-- The dispatch on one key of `parseState.and` (rql.go).  The `$or`/`$and`
branches delegate to `parseState.relOp`, whose body is inlined here (see the
standalone `relOp` below, to which the `.arr` branches are definitionally
equal) so that the recursion stays structural. -/
def keyExp (p : Parser) (st : PState) (k : String) (v : Value) : Except Failure PState :=
  if k = p.op "or" then
    match v with
    | .arr terms =>
      let st1 := if terms.length > 1 then st.write "(" else st
      (match relTerms p "or" true st1 terms with
       | .error e => .error e
       | .ok st2 => .ok (if terms.length > 1 then st2.write ")" else st2))
    | _ => .error (.parseErr "$or must be type array")
  else if k = p.op "and" then
    match v with
    | .arr terms =>
      let st1 := if terms.length > 1 then st.write "(" else st
      (match relTerms p "and" true st1 terms with
       | .error e => .error e
       | .ok st2 => .ok (if terms.length > 1 then st2.write ")" else st2))
    | _ => .error (.parseErr "$and must be type array")
  else
    match p.lookupField k with
    | some f =>
      if f.filterable then fieldExp p f st v
      else .error (.parseErr ("field \"" ++ k ++ "\" is not filterable"))
    | none => .error (.parseErr ("unrecognized key \"" ++ k ++ "\" for filtering"))

/-- The loop body of `parseState.relOp` (rql.go): join the terms with
`" " + GetDBOp(op) + " "`; every term must be an object, compiled by a
recursive `parseState.and`. -/
def relTerms (p : Parser) (op : String) (first : Bool) (st : PState) :
    List Value → Except Failure PState
  | [] => .ok st
  | t :: ts =>
    let st1 := if first then st else st.write (" " ++ opFormat op ++ " ")
    match t with
    | .obj mt =>
      match andExp p true st1 mt with
      | .error e => .error e
      | .ok st2 => relTerms p op false st2 ts
    | _ => .error (.parseErr ("expressions for $" ++ op ++ " operator must be type object"))

end

/-- `parseState.relOp` (rql.go): wrap the joined group in parentheses
exactly when it has more than one term.  The `$or`/`$and` branches of
`keyExp` are definitionally this function. -/
def relOp (p : Parser) (op : String) (st : PState) (terms : List Value) :
    Except Failure PState :=
  let st1 := if terms.length > 1 then st.write "(" else st
  match relTerms p op true st1 terms with
  | .error e => .error e
  | .ok st2 => .ok (if terms.length > 1 then st2.write ")" else st2)

/-- One iteration of `Parser.sort` (rql.go): reject the empty string, strip
an optional `'+'`/`'-'` direction prefix (rendered through the default
`GetDBDir`, i.e. `sortDirection`), require a known sortable field, and
append the direction to the column name when present. -/
def sortOne (p : Parser) (field : String) : Except Failure String :=
  if field = "" then .error (.parseErr "sort field can not be empty")
  else
    let dir := match field.data with
      | c :: _ => if c = '+' ∨ c = '-' then sortDirection c else ""
      | [] => ""
    let fname := match field.data with
      | c :: rest => if c = '+' ∨ c = '-' then String.mk rest else field
      | [] => field
    match p.lookupField fname with
    | none => .error (.parseErr ("unrecognized key \"" ++ fname ++ "\" for sorting"))
    | some f =>
      if f.sortable then
        .ok (if dir ≠ "" then p.colName fname ++ " " ++ dir else p.colName fname)
      else .error (.parseErr ("field \"" ++ fname ++ "\" is not sortable"))

/-- The loop of `Parser.sort` (rql.go) over the caller's entries. -/
def sortList (p : Parser) : List String → Except Failure (List String)
  | [] => .ok []
  | f :: fs =>
    match sortOne p f with
    | .error e => .error e
    | .ok s =>
      match sortList p fs with
      | .error e => .error e
      | .ok ss => .ok (s :: ss)

/-- `Parser.sort` (rql.go): build each entry, then `strings.Join(_, ", ")`. -/
def Parser.sort (p : Parser) (fields : List String) : Except Failure String :=
  match sortList p fields with
  | .error e => .error e
  | .ok ss => .ok (String.intercalate ", " ss)

/-- `Query` (rql.go): the decoded top-level request. -/
structure Query : Type where
  limit : ℤ := 0
  offset : ℤ := 0
  select : List String := []
  sort : List String := []
  filter : List (String × Value) := []

/-- `Params` (rql.go): the parser output. -/
structure Params : Type where
  limit : ℤ
  offset : ℤ
  select : String
  sort : String
  filterExp : String
  filterArgs : List Arg

/-- `Parser.ParseQuery` (rql.go): validate offset and limit, compile the
filter, build the sort clause (falling back to the configured default sort
when the built clause is empty), and join the select list.  A `*ParseError`
panic anywhere is recovered into an error return with a nil `Params`
(`Except.error (.parseErr _)`); any other panic is re-raised
(`Except.error .runtimePanic` — the call never returns in Go). -/
def ParseQuery (p : Parser) (q : Query) : Except Failure Params :=
  if ¬ q.offset ≥ 0 then .error (.parseErr "offset must be greater than or equal to 0")
  else
    match (if q.limit ≠ 0 then
        (if q.limit > 0 ∧ q.limit ≤ p.limitMaxValue then Except.ok q.limit
         else .error (.parseErr ("limit must be greater than 0 and less than or equal to "
            ++ toString p.limitMaxValue)))
      else Except.ok p.defaultLimit) with
    | .error e => .error e
    | .ok lim =>
      match andExp p true emptyState q.filter with
      | .error e => .error e
      | .ok st =>
        match p.sort q.sort with
        | .error e => .error e
        | .ok srt =>
          match (if srt.length = 0 ∧ p.defaultSort.length > 0
              then p.sort p.defaultSort else Except.ok srt) with
          | .error e => .error e
          | .ok srt2 =>
            .ok { limit := lim, offset := q.offset,
                  select := String.intercalate ", " q.select,
                  sort := srt2, filterExp := String.mk st.buf, filterArgs := st.values }

/-! ## Column-name derivation (`Column`, rql.go) -/

/-- The underscore condition of `Column` (rql.go) at index `i`: not the
first or last byte, an uppercase letter, and either the previous byte is
lowercase, or the next byte is lowercase and the previous byte is a
letter. -/
def columnBoundary (s : List Char) (i : Nat) : Bool :=
  decide (0 < i) && decide (i < s.length - 1) && (s.getD i ' ').isUpper &&
    ((s.getD (i-1) ' ').isLower ||
      ((s.getD (i+1) ' ').isLower && (s.getD (i-1) ' ').isAlpha))

/-- `Column` (rql.go): iterate over the bytes; before each byte satisfying
`columnBoundary` write `"_"`; always write the lower-cased byte. -/
def Column (s : List Char) : List Char :=
  (List.range s.length).flatMap (fun i =>
    (if columnBoundary s i then ['_'] else []) ++ [(s.getD i ' ').toLower])

/-- Word-boundary rule exactly as the claim states it: an uppercase letter
preceded by a lowercase letter, or an uppercase letter followed by a
lowercase letter whose preceding character is itself a letter.  (Written
from the spec's words, for comparison with `columnBoundary`.) -/
def specBoundary (s : List Char) (i : Nat) : Bool :=
  (s.getD i ' ').isUpper &&
    ((decide (0 < i) && (s.getD (i-1) ' ').isLower) ||
      (decide (0 < i) && (s.getD (i-1) ' ').isAlpha &&
        decide (i + 1 < s.length) && (s.getD (i+1) ' ').isLower))

/-- The amended boundary rule: the claim's rule restricted to positions
that are not the final character. -/
def amendedBoundary (s : List Char) (i : Nat) : Bool :=
  specBoundary s i && decide (i + 1 < s.length)

/-- Split `s` into words, starting a new word at every index where `b`
holds.  `i` is the index of the head of the remaining list; `cur` is the
current word, reversed. -/
def splitWordsAux (b : List Char → Nat → Bool) (s : List Char) :
    Nat → List Char → List Char → List (List Char)
  | _, cur, [] => [cur.reverse]
  | i, cur, c :: rest =>
    if b s i then cur.reverse :: splitWordsAux b s (i+1) [c] rest
    else splitWordsAux b s (i+1) (c :: cur) rest

/-- Split a string into words at the boundaries given by `b`. -/
def splitWords (b : List Char → Nat → Bool) (s : List Char) : List (List Char) :=
  splitWordsAux b s 0 [] s

/-- Join a list of words with single underscores. -/
def joinWords : List (List Char) → List Char
  | [] => []
  | [w] => w
  | w :: ws => w ++ '_' :: joinWords ws

/-- "split the identifier into words at the boundaries, join the words with
underscores and lower-case the result" — the spec's rendering recipe,
parameterized by the boundary rule. -/
def specColumnOf (b : List Char → Nat → Bool) (s : List Char) : List Char :=
  (joinWords (splitWords b s)).map Char.toLower

/-- The claim's column derivation, rule taken verbatim from its words. -/
def specColumnClaim (s : List Char) : List Char := specColumnOf specBoundary s

/-- The amended column derivation (claim's rule, minus the last character). -/
def specColumnAmended (s : List Char) : List Char := specColumnOf amendedBoundary s

/-! ## The in-order leaf-argument sequence of a filter document

`leafAnd` walks a filter document in exactly the compiler's left-to-right
order but collects only the converted leaf arguments, one per emitted
placeholder.  It is the specification of "arguments appear in the same
left-to-right order as their placeholders". -/

/-- The argument contributed by one operator-object entry. -/
def leafTerm (_p : Parser) (f : Field) (opName : String) (opVal : Value) :
    Except Failure Arg :=
  if opName.length = 0 then .error .runtimePanic
  else
    let op := opName.drop 1
    if opName ∈ f.filterOps then
      match f.kind.validateFn op opVal with
      | some e =>
        .error (.parseErr ("invalid datatype or format for field \"" ++ f.name ++ "\": " ++ e))
      | none =>
        match f.kind.convertFn op opVal with
        | some a => .ok a
        | none => .error .runtimePanic
    else
      .error (.parseErr ("can not apply op \"" ++ opName ++ "\" on field \"" ++ f.name ++ "\""))

/-- The arguments contributed by an operator-object, in entry order. -/
def leafTerms (p : Parser) (f : Field) : List (String × Value) → Except Failure (List Arg)
  | [] => .ok []
  | (k, v) :: rest =>
    match leafTerm p f k v with
    | .error e => .error e
    | .ok a =>
      match leafTerms p f rest with
      | .error e => .error e
      | .ok as => .ok (a :: as)

/-- The arguments contributed by one field predicate. -/
def leafField (p : Parser) (f : Field) (v : Value) : Except Failure (List Arg) :=
  match v with
  | .obj terms => leafTerms p f terms
  | _ =>
    match f.kind.validateFn "eq" v with
    | some e => .error (.parseErr ("invalid datatype for field \"" ++ f.name ++ "\": " ++ e))
    | none =>
      match f.kind.convertFn "eq" v with
      | some a => .ok [a]
      | none => .error .runtimePanic

mutual

/-- The arguments contributed by a conjunction document, in entry order. -/
def leafAnd (p : Parser) : List (String × Value) → Except Failure (List Arg)
  | [] => .ok []
  | (k, v) :: rest =>
    match leafKey p k v with
    | .error e => .error e
    | .ok vs =>
      match leafAnd p rest with
      | .error e => .error e
      | .ok ws => .ok (vs ++ ws)

/-- The arguments contributed by one key. -/
def leafKey (p : Parser) (k : String) (v : Value) : Except Failure (List Arg) :=
  if k = p.op "or" then
    match v with
    | .arr terms => leafRel p "or" terms
    | _ => .error (.parseErr "$or must be type array")
  else if k = p.op "and" then
    match v with
    | .arr terms => leafRel p "and" terms
    | _ => .error (.parseErr "$and must be type array")
  else
    match p.lookupField k with
    | some f =>
      if f.filterable then leafField p f v
      else .error (.parseErr ("field \"" ++ k ++ "\" is not filterable"))
    | none => .error (.parseErr ("unrecognized key \"" ++ k ++ "\" for filtering"))

/-- The arguments contributed by a `$or`/`$and` term list, in term order. -/
def leafRel (p : Parser) (op : String) : List Value → Except Failure (List Arg)
  | [] => .ok []
  | t :: ts =>
    match t with
    | .obj mt =>
      match leafAnd p mt with
      | .error e => .error e
      | .ok vs =>
        match leafRel p op ts with
        | .error e => .error e
        | .ok ws => .ok (vs ++ ws)
    | _ => .error (.parseErr ("expressions for $" ++ op ++ " operator must be type object"))

end

/-! ## Syntactic predicates on filter documents -/

/-- The operator-object keys of a field value are all non-empty. -/
def noPanicTermsOf (v : Value) : Bool :=
  match v with
  | .obj terms => terms.all (fun kv => decide (kv.1 ≠ ""))
  | _ => true

mutual

/-- No reachable operator-object of the document carries an empty operator
key: the precise condition under which the filter walk cannot hit the
`opName[1:]` slice panic. -/
def noPanicAnd (p : Parser) : List (String × Value) → Bool
  | [] => true
  | (k, v) :: rest => noPanicKey p k v && noPanicAnd p rest

/-- `noPanicAnd`, for a single key. -/
def noPanicKey (p : Parser) (k : String) (v : Value) : Bool :=
  if k = p.op "or" ∨ k = p.op "and" then
    match v with
    | .arr ts => noPanicRel p ts
    | _ => true
  else
    match p.lookupField k with
    | some f => if f.filterable then noPanicTermsOf v else true
    | none => true

/-- `noPanicAnd`, for a `$or`/`$and` term list. -/
def noPanicRel (p : Parser) : List Value → Bool
  | [] => true
  | t :: ts =>
    (match t with
     | .obj mt => noPanicAnd p mt
     | _ => true) && noPanicRel p ts

end

/-- The field value is an operator-object applying some operator token
outside the field's declared set. -/
def violTermsOf (f : Field) (v : Value) : Bool :=
  match v with
  | .obj terms => terms.any (fun kv => decide (kv.1 ∉ f.filterOps))
  | _ => false

mutual

/-- The document contains one of the violations enumerated by the claim:
an unrecognized key, a non-filterable field, an operator token outside the
field's declared set, or a non-array `$and`/`$or` value. -/
def hasViolAnd (p : Parser) : List (String × Value) → Bool
  | [] => false
  | (k, v) :: rest => hasViolKey p k v || hasViolAnd p rest

/-- `hasViolAnd`, for a single key. -/
def hasViolKey (p : Parser) (k : String) (v : Value) : Bool :=
  if k = p.op "or" ∨ k = p.op "and" then
    match v with
    | .arr ts => hasViolRel p ts
    | _ => true
  else
    match p.lookupField k with
    | some f => !f.filterable || violTermsOf f v
    | none => true

/-- `hasViolAnd`, for a `$or`/`$and` term list. -/
def hasViolRel (p : Parser) : List Value → Bool
  | [] => false
  | t :: ts =>
    (match t with
     | .obj mt => hasViolAnd p mt
     | _ => false) || hasViolRel p ts

end

/-! ## Sort-clause specification (from the spec's words, for C9) -/

/-- The field reference with an optional leading `'+'`/`'-'` stripped. -/
def stripDir (e : String) : String :=
  match e.data with
  | c :: rest => if c = '+' ∨ c = '-' then String.mk rest else e
  | [] => e

/-- The spec's rendering of one sort entry: the column name (separator
rewritten to `'_'`), with suffix `" desc"` for a `'-'` prefix, `" asc"`
for a `'+'` prefix, and no suffix otherwise. -/
def renderSortEntry (p : Parser) (e : String) : String :=
  match e.data with
  | c :: rest =>
    if c = '-' then p.colName (String.mk rest) ++ " desc"
    else if c = '+' then p.colName (String.mk rest) ++ " asc"
    else p.colName e
  | [] => p.colName e

/-- A sort entry is valid: non-empty, and (after stripping the optional
direction prefix) names an existing sortable field. -/
def validSortEntry (p : Parser) (e : String) : Prop :=
  e ≠ "" ∧ ∃ f, p.lookupField (stripDir e) = some f ∧ f.sortable

/-- The parse error produced by the first invalid sort entry. -/
def sortErrMsg (p : Parser) (e : String) : String :=
  match p.lookupField (stripDir e) with
  | none => "unrecognized key \"" ++ stripDir e ++ "\" for sorting"
  | some _ => "field \"" ++ stripDir e ++ "\" is not sortable"

/-- The number of `?` placeholders in an expression. -/
def countQ (s : List Char) : Nat := s.count '?'

/-- No column name of the schema contains a `?` placeholder character
(true of every name the schema builder derives from Go identifiers). -/
def qFree (p : Parser) : Prop := ∀ f ∈ p.fields, '?' ∉ (p.colName f.name).data

/-- Sample field: `Age int` with `rql:"filter,sort"`. -/
def ageField : Field :=
  { name := "age", sortable := true, filterable := true,
    filterOps := ["$eq", "$neq", "$lt", "$lte", "$gt", "$gte"], kind := .kint }

/-- Sample field: `Name string` with `rql:"filter"`. -/
def nameField : Field :=
  { name := "name", filterable := true,
    filterOps := ["$eq", "$neq", "$lt", "$lte", "$gt", "$gte", "$like"], kind := .kstr }

/-- Sample field: nested `Address.Name` flattened with separator `"."`. -/
def addrNameField : Field :=
  { name := "address.name", sortable := true, filterable := true,
    filterOps := ["$eq", "$like"], kind := .kstr }

/-- Sample field: `ID uint` with `rql:"filter,sort"`. -/
def idField : Field :=
  { name := "id", sortable := true, filterable := true,
    filterOps := ["$eq", "$neq", "$lt", "$lte", "$gt", "$gte"], kind := .kuint }

/-- Sample schema used by the concrete witnesses: the `Age int` /
`Name string` model of the spec's end-to-end example, with the default
configuration. -/
def sampleParser : Parser := { fields := [ageField, nameField] }

/-- Sample schema with field separator `"."` and the sortable fields of the
spec's sort example (`address.name`, `age`, `id`). -/
def sampleParserDot : Parser :=
  { fieldSep := ".", fields := [addrNameField, ageField, idField] }

/-- Shift a compilation result by a pre-existing state: the buffer and the
argument list are append-only, so a run from `st` is the run from the empty
state with `st`'s contents prepended. -/
def shiftSt (st c : PState) : PState :=
  { buf := st.buf ++ c.buf, values := st.values ++ c.values }

end Rql

namespace Rql

/-! ## Basic state algebra -/

theorem shiftSt_empty (st : PState) : shiftSt st emptyState = st := by
  simp [shiftSt, emptyState]

theorem empty_shiftSt (c : PState) : shiftSt emptyState c = c := by
  simp [shiftSt, emptyState]

theorem shiftSt_assoc (a b c : PState) :
    shiftSt (shiftSt a b) c = shiftSt a (shiftSt b c) := by
  simp [shiftSt]

theorem shiftSt_write (st c : PState) (s : String) :
    shiftSt st (c.write s) = (shiftSt st c).write s := by
  simp [shiftSt, PState.write]

theorem shiftSt_push (st c : PState) (a : Arg) :
    shiftSt st (c.push a) = (shiftSt st c).push a := by
  simp [shiftSt, PState.push]

theorem write_as_shift (st : PState) (s : String) :
    st.write s = shiftSt st { buf := s.data, values := [] } := by
  simp [shiftSt, PState.write]

theorem map_shift_shift (st c : PState) (x : Except Failure PState) :
    x.map (shiftSt (shiftSt st c)) = (x.map (shiftSt c)).map (shiftSt st) := by
  cases x <;> simp [Except.map, shiftSt_assoc]

/-! ## Shift (frame) lemmas: compilation is append-only and its emitted
text and arguments do not depend on the pre-existing state. -/

theorem fieldTerm_shift (p : Parser) (f : Field) (st : PState) (first : Bool)
    (k : String) (v : Value) :
    fieldTerm p f st first k v = (fieldTerm p f emptyState first k v).map (shiftSt st) := by
  unfold fieldTerm
  by_cases h0 : k.length = 0
  · cases first <;> simp [h0, Except.map]
  · by_cases hm : k ∈ f.filterOps
    · cases hv : f.kind.validateFn (k.drop 1) v with
      | some e => cases first <;> simp [h0, hm, hv, Except.map]
      | none =>
        cases hc : f.kind.convertFn (k.drop 1) v with
        | some a =>
          cases first <;>
            simp [h0, hm, hv, hc, Except.map, shiftSt, PState.write, PState.push, emptyState]
        | none => cases first <;> simp [h0, hm, hv, hc, Except.map]
    · cases first <;> simp [h0, hm, Except.map]

theorem fieldTerms_shift (p : Parser) (f : Field) (l : List (String × Value)) :
    ∀ (first : Bool) (st : PState),
      fieldTerms p f st first l = (fieldTerms p f emptyState first l).map (shiftSt st) := by
  induction l with
  | nil => intro first st; simp [fieldTerms, Except.map, shiftSt_empty]
  | cons kv rest ih =>
    intro first st
    obtain ⟨k, v⟩ := kv
    simp only [fieldTerms]
    rw [fieldTerm_shift p f st first k v]
    cases h : fieldTerm p f emptyState first k v with
    | error e => simp [Except.map]
    | ok c =>
      simp only [Except.map]
      rw [ih false (shiftSt st c), ih false c]
      exact map_shift_shift st c _

theorem shift_write_front (st : PState) (s : String) (c : PState) :
    shiftSt (st.write s) c = shiftSt st (shiftSt { buf := s.data, values := [] } c) := by
  simp [shiftSt, PState.write]

theorem fieldShort_shift (p : Parser) (f : Field) (st : PState) (v : Value) :
    fieldShort p f st v = (fieldShort p f emptyState v).map (shiftSt st) := by
  unfold fieldShort
  cases hv : f.kind.validateFn "eq" v with
  | some e => simp [Except.map]
  | none =>
    cases hc : f.kind.convertFn "eq" v with
    | some a => simp [Except.map, shiftSt, PState.write, PState.push, emptyState]
    | none => simp [Except.map]

theorem fieldExp_shift (p : Parser) (f : Field) (st : PState) (v : Value) :
    fieldExp p f st v = (fieldExp p f emptyState v).map (shiftSt st) := by
  cases v with
  | obj terms =>
    simp only [fieldExp]
    by_cases hl : terms.length > 1
    · simp only [if_pos hl]
      rw [fieldTerms_shift p f terms true (st.write "("),
        fieldTerms_shift p f terms true (emptyState.write "(")]
      cases h : fieldTerms p f emptyState true terms with
      | error e => simp [Except.map]
      | ok c =>
        simp [Except.map, shiftSt, PState.write, emptyState]
    · simp only [if_neg hl]
      rw [fieldTerms_shift p f terms true st]
      cases h : fieldTerms p f emptyState true terms with
      | error e => simp [Except.map]
      | ok c => simp [Except.map]
  | num q => exact fieldShort_shift p f st _
  | str s => exact fieldShort_shift p f st _
  | bool b => exact fieldShort_shift p f st _
  | null => exact fieldShort_shift p f st _
  | arr a => exact fieldShort_shift p f st _

mutual

theorem andExp_shift (p : Parser) (l : List (String × Value)) :
    ∀ (first : Bool) (st : PState),
      andExp p first st l = (andExp p first emptyState l).map (shiftSt st) := by
  cases l with
  | nil => intro first st; simp [andExp, Except.map, shiftSt_empty]
  | cons kv rest =>
    intro first st
    obtain ⟨k, v⟩ := kv
    cases first <;>
      · simp only [andExp]
        rw [keyExp_shift p v]
        conv_rhs => rw [keyExp_shift p v]
        cases h : keyExp p emptyState k v with
        | error e => simp [Except.map]
        | ok c =>
          simp only [Except.map]
          rw [andExp_shift p rest false, andExp_shift p rest false (shiftSt _ c)]
          cases x : andExp p false emptyState rest <;>
            simp [Except.map, shiftSt, PState.write, emptyState]

theorem keyExp_shift (p : Parser) (v : Value) :
    ∀ (k : String) (st : PState),
      keyExp p st k v = (keyExp p emptyState k v).map (shiftSt st) := by
  intro k st
  by_cases hor : k = p.op "or"
  · cases v with
    | arr terms =>
      simp only [keyExp, if_pos hor]
      by_cases hl : terms.length > 1
      · simp only [if_pos hl]
        rw [relTerms_shift p terms "or" true (st.write "("),
          relTerms_shift p terms "or" true (emptyState.write "(")]
        cases h : relTerms p "or" true emptyState terms with
        | error e => simp [Except.map]
        | ok c => simp [Except.map, shiftSt, PState.write, emptyState]
      · simp only [if_neg hl]
        rw [relTerms_shift p terms "or" true st]
        cases h : relTerms p "or" true emptyState terms <;> simp [Except.map]
    | num q => simp [keyExp, if_pos hor, Except.map]
    | str s => simp [keyExp, if_pos hor, Except.map]
    | bool b => simp [keyExp, if_pos hor, Except.map]
    | null => simp [keyExp, if_pos hor, Except.map]
    | obj o => simp [keyExp, if_pos hor, Except.map]
  · by_cases hand : k = p.op "and"
    · cases v with
      | arr terms =>
        simp only [keyExp, if_neg hor, if_pos hand]
        by_cases hl : terms.length > 1
        · simp only [if_pos hl]
          rw [relTerms_shift p terms "and" true (st.write "("),
            relTerms_shift p terms "and" true (emptyState.write "(")]
          cases h : relTerms p "and" true emptyState terms with
          | error e => simp [Except.map]
          | ok c => simp [Except.map, shiftSt, PState.write, emptyState]
        · simp only [if_neg hl]
          rw [relTerms_shift p terms "and" true st]
          cases h : relTerms p "and" true emptyState terms <;> simp [Except.map]
      | num q => simp [keyExp, if_neg hor, if_pos hand, Except.map]
      | str s => simp [keyExp, if_neg hor, if_pos hand, Except.map]
      | bool b => simp [keyExp, if_neg hor, if_pos hand, Except.map]
      | null => simp [keyExp, if_neg hor, if_pos hand, Except.map]
      | obj o => simp [keyExp, if_neg hor, if_pos hand, Except.map]
    · unfold keyExp
      simp only [if_neg hor, if_neg hand]
      cases hf : p.lookupField k with
      | none => simp [Except.map]
      | some f =>
        by_cases hfil : f.filterable
        · simp only [hfil, if_pos]
          exact fieldExp_shift p f st v
        · simp [hfil, Except.map]

theorem relTerms_shift (p : Parser) (l : List Value) :
    ∀ (op : String) (first : Bool) (st : PState),
      relTerms p op first st l = (relTerms p op first emptyState l).map (shiftSt st) := by
  cases l with
  | nil => intro op first st; simp [relTerms, Except.map, shiftSt_empty]
  | cons t ts =>
    intro op first st
    cases t with
    | obj mt =>
      cases first <;>
        · simp only [relTerms]
          rw [andExp_shift p mt true]
          conv_rhs => rw [andExp_shift p mt true]
          cases h : andExp p true emptyState mt with
          | error e => simp [Except.map]
          | ok c =>
            simp only [Except.map]
            rw [relTerms_shift p ts op false, relTerms_shift p ts op false (shiftSt _ c)]
            cases x : relTerms p op false emptyState ts <;>
              simp [Except.map, shiftSt, PState.write, emptyState]
    | num q => cases first <;> simp [relTerms, Except.map]
    | str s => cases first <;> simp [relTerms, Except.map]
    | bool b => cases first <;> simp [relTerms, Except.map]
    | null => cases first <;> simp [relTerms, Except.map]
    | arr a => cases first <;> simp [relTerms, Except.map]

end

theorem relOp_shift (p : Parser) (op : String) (st : PState) (terms : List Value) :
    relOp p op st terms = (relOp p op emptyState terms).map (shiftSt st) := by
  unfold relOp
  by_cases hl : terms.length > 1
  · simp only [if_pos hl]
    rw [relTerms_shift p terms op true (st.write "("),
      relTerms_shift p terms op true (emptyState.write "(")]
    cases h : relTerms p op true emptyState terms with
    | error e => simp [Except.map]
    | ok c => simp [Except.map, shiftSt, PState.write, emptyState]
  · simp only [if_neg hl]
    rw [relTerms_shift p terms op true st]
    cases h : relTerms p op true emptyState terms <;> simp [Except.map]

/-- The `$or` branch of `keyExp` is `parseState.relOp` with the `or`
operator. -/
theorem keyExp_or_eq_relOp (p : Parser) (st : PState) (k : String) (terms : List Value)
    (hk : k = p.op "or") :
    keyExp p st k (.arr terms) = relOp p "or" st terms := by
  simp [keyExp, relOp, hk]

/-- The `$and` branch of `keyExp` is `parseState.relOp` with the `and`
operator. -/
theorem keyExp_and_eq_relOp (p : Parser) (st : PState) (k : String) (terms : List Value)
    (hk : k = p.op "and") (hne : k ≠ p.op "or") :
    keyExp p st k (.arr terms) = relOp p "and" st terms := by
  simp [keyExp, relOp, hk, if_neg (hk ▸ hne)]

/-- A successful default validation guarantees the default converter
produces a value (the converter's type assertion cannot panic). -/
theorem convert_total_of_validate (kd : Kind) (op : String) (v : Value)
    (h : kd.validateFn op v = none) : ∃ a, kd.convertFn op v = some a := by
  cases kd <;> cases v <;>
    simp_all [Kind.validateFn, Kind.convertFn, validateBool, validateString,
      validateInt, validateUInt, validateFloat, convertInt, valueFn] <;>
    (try (split <;> exact ⟨_, rfl⟩))

/-- A one-entry conjunction document compiles exactly as its single key. -/
theorem andExp_singleton (p : Parser) (st : PState) (k : String) (v : Value) :
    andExp p true st [(k, v)] = keyExp p st k v := by
  simp only [andExp, if_pos rfl]
  cases h : keyExp p st k v <;> simp [h, andExp]

/-! ## C2: equality shorthand -/

/-- **C2.** For a filterable field `f` whose operator set contains `$eq`
(with the default `"$"` operator prefix) and a scalar value `v` accepted by
the field's validator, compiling `{f: v}` and compiling `{f: {"$eq": v}}`
produce exactly the same rendered predicate text and the same single
converted argument. -/
theorem claim2_eq_shorthand (p : Parser) (st : PState) (k : String) (f : Field) (v : Value)
    (hk : p.lookupField k = some f) (hfil : f.filterable = true)
    (hor : k ≠ p.op "or") (hand : k ≠ p.op "and")
    (hops : "$eq" ∈ f.filterOps)
    (hscalar : match v with
      | .obj _ => False
      | .arr _ => False
      | _ => True)
    (hval : f.kind.validateFn "eq" v = none) :
    ∃ a, f.kind.convertFn "eq" v = some a ∧
      andExp p true st [(k, v)] = .ok ((st.write (p.fmtOp f "eq")).push a) ∧
      andExp p true st [(k, .obj [("$eq", v)])] = .ok ((st.write (p.fmtOp f "eq")).push a) := by
  obtain ⟨a, ha⟩ := convert_total_of_validate f.kind "eq" v hval
  have hdrop : ("$eq" : String).drop 1 = "eq" := rfl
  have hlen : ("$eq" : String).length = 3 := rfl
  refine ⟨a, ha, ?_, ?_⟩
  · rw [andExp_singleton]
    unfold keyExp
    simp only [if_neg hor, if_neg hand, hk, hfil, if_pos]
    cases v <;> simp_all [fieldExp, fieldShort]
  · rw [andExp_singleton]
    unfold keyExp
    simp only [if_neg hor, if_neg hand, hk, hfil, if_pos]
    simp [fieldExp, fieldTerms, fieldTerm, hlen, hdrop, hops, hval, ha]

/-- Witness for C2: `{"age": 7}` vs `{"age": {"$eq": 7}}` on the sample
schema, both rendering `age = ?` with the single argument `7`. -/
theorem claim2_eq_shorthand_witness :
    ∃ a, Kind.convertFn .kint "eq" (.num 7) = some a ∧
      andExp sampleParser true emptyState [("age", .num 7)]
        = .ok ((emptyState.write "age = ?").push a) ∧
      andExp sampleParser true emptyState [("age", .obj [("$eq", .num 7)])]
        = .ok ((emptyState.write "age = ?").push a) := by
  have h := claim2_eq_shorthand sampleParser emptyState "age" ageField
    (.num 7) rfl rfl (by decide) (by decide) (by decide) trivial rfl
  simpa using h

/-! ## C3: disjunction/conjunction parenthesization -/

/-- **C3.** A one-element array under `$or`/`$and` compiles to exactly the
sub-expression of its single document, with no wrapping parentheses; an
array of two or more elements compiles to the group joined by the
operator's rendering (`relTerms`), wrapped in exactly one pair of
parentheses. -/
theorem claim3_group_parenthesization (p : Parser) (op : String) (st : PState) :
    (∀ (mt : List (String × Value)),
      relOp p op st [.obj mt] = andExp p true st mt) ∧
    (∀ (terms : List Value) (st' : PState), 2 ≤ terms.length →
      relOp p op st terms = .ok st' →
      ∃ (inner : List Char) (vs : List Arg),
        relTerms p op true emptyState terms = .ok { buf := inner, values := vs } ∧
        st' = { buf := st.buf ++ '(' :: (inner ++ [')']),
                values := st.values ++ vs }) := by
  constructor
  · intro mt
    unfold relOp
    simp only [List.length_singleton, gt_iff_lt, lt_irrefl, if_neg]
    simp only [relTerms]
    cases h : andExp p true st mt <;> simp [h, relTerms]
  · intro terms st' hlen h
    have hl : terms.length > 1 := by omega
    simp only [relOp, if_pos hl] at h
    rw [relTerms_shift p terms op true (st.write "(")] at h
    cases hc : relTerms p op true emptyState terms with
    | error e => rw [hc] at h; simp [Except.map] at h
    | ok c =>
      rw [hc] at h
      simp only [Except.map, if_pos hl, Except.ok.injEq] at h
      refine ⟨c.buf, c.values, rfl, ?_⟩
      rw [← h]
      simp [shiftSt, PState.write, emptyState]

/-- Witness for C3: a singleton and a two-element `$or` group over the
sample schema. -/
theorem claim3_group_parenthesization_witness :
    relOp sampleParser "or" emptyState [.obj [("age", .num 7)]]
      = andExp sampleParser true emptyState [("age", .num 7)] ∧
    ∃ (inner : List Char) (vs : List Arg),
      relTerms sampleParser "or" true emptyState
        [.obj [("age", .num 7)], .obj [("age", .num 8)]] = .ok { buf := inner, values := vs } ∧
      ({ buf := "(age = ? OR age = ?)".data, values := [.int 7, .int 8] } : PState)
        = { buf := emptyState.buf ++ '(' :: (inner ++ [')']),
            values := emptyState.values ++ vs } := by
  refine ⟨(claim3_group_parenthesization sampleParser "or" emptyState).1 _, ?_⟩
  exact (claim3_group_parenthesization sampleParser "or" emptyState).2
    [.obj [("age", .num 7)], .obj [("age", .num 8)]]
    { buf := "(age = ? OR age = ?)".data, values := [.int 7, .int 8] }
    (by decide) rfl

/-! ## C9: sort clause -/

theorem string_cons_ne_empty (c : Char) (rest : List Char) :
    (⟨c :: rest⟩ : String) ≠ "" := by
  intro h
  have : (⟨c :: rest⟩ : String).data = ("" : String).data := by rw [h]
  simp at this

theorem sortOne_eq (p : Parser) (c : Char) (rest : List Char) :
    sortOne p ⟨c :: rest⟩ =
      (let dir := if c = '+' ∨ c = '-' then sortDirection c else ""
       let fname : String := if c = '+' ∨ c = '-' then ⟨rest⟩ else ⟨c :: rest⟩
       match p.lookupField fname with
       | none => .error (.parseErr ("unrecognized key \"" ++ fname ++ "\" for sorting"))
       | some f =>
         if f.sortable then
           .ok (if dir ≠ "" then p.colName fname ++ " " ++ dir else p.colName fname)
         else .error (.parseErr ("field \"" ++ fname ++ "\" is not sortable"))) := by
  unfold sortOne
  rw [if_neg (string_cons_ne_empty c rest)]

theorem stripDir_cons (c : Char) (rest : List Char) :
    stripDir ⟨c :: rest⟩ = if c = '+' ∨ c = '-' then ⟨rest⟩ else ⟨c :: rest⟩ := rfl

theorem renderSortEntry_cons (p : Parser) (c : Char) (rest : List Char) :
    renderSortEntry p ⟨c :: rest⟩ =
      if c = '-' then p.colName ⟨rest⟩ ++ " desc"
      else if c = '+' then p.colName ⟨rest⟩ ++ " asc"
      else p.colName ⟨c :: rest⟩ := rfl

theorem string_append_assoc (a b c : String) : a ++ b ++ c = a ++ (b ++ c) := by
  apply String.ext
  simp [String.data_append, List.append_assoc]

theorem sortOne_valid (p : Parser) (e : String) (h : validSortEntry p e) :
    sortOne p e = .ok (renderSortEntry p e) := by
  obtain ⟨hne, f, hf, hsort⟩ := h
  obtain ⟨l⟩ := e
  cases l with
  | nil => exact absurd rfl hne
  | cons c rest =>
    rw [sortOne_eq, renderSortEntry_cons]
    rw [stripDir_cons] at hf
    by_cases hpm : c = '+' ∨ c = '-'
    · rw [if_pos hpm] at hf
      simp only [if_pos hpm]
      rw [hf]
      simp only [hsort, ite_true, if_pos]
      rcases hpm with rfl | rfl
      · rw [if_neg (show ¬ ('+' : Char) = '-' by decide), if_pos rfl]
        rw [show sortDirection '+' = "asc" from rfl]
        rw [if_pos (show ("asc" : String) ≠ "" by decide)]
        rw [string_append_assoc, show (" " ++ "asc" : String) = " asc" from rfl]
      · rw [if_pos rfl]
        rw [show sortDirection '-' = "desc" from rfl]
        rw [if_pos (show ("desc" : String) ≠ "" by decide)]
        rw [string_append_assoc, show (" " ++ "desc" : String) = " desc" from rfl]
    · rw [if_neg hpm] at hf
      simp only [if_neg hpm]
      rw [hf]
      simp only [hsort, ite_true, if_pos]
      have hp : ¬ c = '+' := fun h => hpm (Or.inl h)
      have hm : ¬ c = '-' := fun h => hpm (Or.inr h)
      rw [if_neg hm, if_neg hp]
      rw [if_neg (show ¬ ("" : String) ≠ "" by simp)]

theorem sortOne_invalid (p : Parser) (e : String) (hne : e ≠ "")
    (hb : p.lookupField (stripDir e) = none ∨
      ∃ f, p.lookupField (stripDir e) = some f ∧ f.sortable = false) :
    sortOne p e = .error (.parseErr (sortErrMsg p e)) := by
  unfold sortErrMsg
  obtain ⟨l⟩ := e
  cases l with
  | nil => exact absurd rfl hne
  | cons c rest =>
    rw [sortOne_eq]
    rw [stripDir_cons] at hb ⊢
    by_cases hpm : c = '+' ∨ c = '-' <;>
      [ (rw [if_pos hpm] at hb ⊢; simp only [if_pos hpm]);
        (rw [if_neg hpm] at hb ⊢; simp only [if_neg hpm]) ] <;>
      · rcases hb with hb | ⟨f, hf, hs⟩
        · rw [hb]
        · rw [hf]
          simp [hs]

theorem sortList_ok_of_valid (p : Parser) (l : List String)
    (h : ∀ e ∈ l, validSortEntry p e) :
    sortList p l = .ok (l.map (renderSortEntry p)) := by
  induction l with
  | nil => simp [sortList]
  | cons e rest ih =>
    simp only [sortList]
    rw [sortOne_valid p e (h e (by simp)), ih (fun x hx => h x (by simp [hx]))]
    simp

theorem sortList_err (p : Parser) (good : List String) (e : String) (rest : List String)
    (hg : ∀ g ∈ good, validSortEntry p g) (hne : e ≠ "")
    (hb : p.lookupField (stripDir e) = none ∨
      ∃ f, p.lookupField (stripDir e) = some f ∧ f.sortable = false) :
    sortList p (good ++ e :: rest) = .error (.parseErr (sortErrMsg p e)) := by
  induction good with
  | nil =>
    simp only [List.nil_append, sortList]
    rw [sortOne_invalid p e hne hb]
  | cons g gs ih =>
    rw [show (g :: gs) ++ e :: rest = g :: (gs ++ e :: rest) from rfl]
    simp only [sortList]
    rw [sortOne_valid p g (hg g (by simp)), ih (fun x hx => hg x (by simp [hx]))]

/-- **C9.** If every sort entry (after stripping an optional `'+'`/`'-'`)
names an existing sortable field, `Parser.sort` returns the comma-joined
column names in the caller's order with suffix `" desc"` for `'-'`-prefixed
entries, `" asc"` for `'+'`-prefixed entries and no suffix otherwise (the
configured field separator rewritten to `'_'`); the first entry naming a
missing or non-sortable field fails the whole sort with a parse error
naming that field. -/
theorem claim9_sort_clause (p : Parser) (l : List String) :
    ((∀ e ∈ l, validSortEntry p e) →
      p.sort l = .ok (String.intercalate ", " (l.map (renderSortEntry p)))) ∧
    (∀ (good : List String) (e : String) (rest : List String),
      l = good ++ e :: rest → (∀ g ∈ good, validSortEntry p g) → e ≠ "" →
      (p.lookupField (stripDir e) = none ∨
        ∃ f, p.lookupField (stripDir e) = some f ∧ f.sortable = false) →
      p.sort l = .error (.parseErr (sortErrMsg p e))) := by
  constructor
  · intro h
    unfold Parser.sort
    rw [sortList_ok_of_valid p l h]
  · intro good e rest hl hg hne hb
    subst hl
    unfold Parser.sort
    rw [sortList_err p good e rest hg hne hb]

/-- Witness for C9: the spec's sort example (separator `"."`):
`["address.name", "-age", "+id"]` renders `address_name, age desc, id asc`,
and `["-foo"]` fails naming `foo`. -/
theorem claim9_sort_clause_witness :
    sampleParserDot.sort ["address.name", "-age", "+id"]
      = .ok "address_name, age desc, id asc" ∧
    sampleParserDot.sort ["-foo"]
      = .error (.parseErr "unrecognized key \"foo\" for sorting") := by
  constructor
  · have h := (claim9_sort_clause sampleParserDot ["address.name", "-age", "+id"]).1 ?_
    · rw [h]
      rfl
    · intro e he
      simp only [List.mem_cons, List.not_mem_nil, or_false] at he
      rcases he with rfl | rfl | rfl
      · exact ⟨by decide, addrNameField, rfl, rfl⟩
      · exact ⟨by decide, ageField, rfl, rfl⟩
      · exact ⟨by decide, idField, rfl, rfl⟩
  · have h := (claim9_sort_clause sampleParserDot ["-foo"]).2 [] "-foo" [] rfl
      (by intro g hg; simp at hg) (by decide) (Or.inl rfl)
    rw [h]
    rfl

/-! ## C7: default column-name derivation -/

theorem joinWords_cons₂ (w : List Char) (ws : List (List Char)) (h : ws ≠ []) :
    joinWords (w :: ws) = w ++ '_' :: joinWords ws := by
  cases ws with
  | nil => exact absurd rfl h
  | cons a as => rfl

theorem splitWordsAux_ne_nil (b : List Char → Nat → Bool) (s : List Char)
    (rem : List Char) : ∀ (i : Nat) (cur : List Char), splitWordsAux b s i cur rem ≠ [] := by
  induction rem with
  | nil => intro i cur; simp [splitWordsAux]
  | cons c rest ih =>
    intro i cur
    simp only [splitWordsAux]
    by_cases hb : b s i
    · simp [hb]
    · simp only [hb, ite_false]
      exact ih (i+1) (c :: cur)

theorem getD_of_drop (s : List Char) (i : Nat) (c : Char) (rest : List Char)
    (h : List.drop i s = c :: rest) : s.getD i ' ' = c := by
  have h0 : (List.drop i s).getD 0 ' ' = c := by rw [h]; rfl
  rw [List.getD_eq_getElem?_getD] at h0 ⊢
  rw [List.getElem?_drop] at h0
  simpa using h0

theorem drop_succ_of_drop (s : List Char) (i : Nat) (c : Char) (rest : List Char)
    (h : List.drop i s = c :: rest) : List.drop (i+1) s = rest := by
  have : List.drop 1 (List.drop i s) = rest := by rw [h]; rfl
  rw [List.drop_drop] at this
  simpa [Nat.add_comm] using this

theorem colAux (b : List Char → Nat → Bool) (s : List Char) :
    ∀ (rem : List Char) (i : Nat) (cur : List Char), List.drop i s = rem →
      (joinWords (splitWordsAux b s i cur rem)).map Char.toLower =
        cur.reverse.map Char.toLower ++
          (List.range' i rem.length).flatMap
            (fun j => (if b s j then ['_'] else []) ++ [(s.getD j ' ').toLower]) := by
  intro rem
  induction rem with
  | nil => intro i cur h; simp [splitWordsAux, joinWords]
  | cons c rest ih =>
    intro i cur h
    have hc : s.getD i ' ' = c := getD_of_drop s i c rest h
    have hc' : s[i]?.getD ' ' = c := by
      rw [List.getD_eq_getElem?_getD] at hc
      exact hc
    have hdrop : List.drop (i+1) s = rest := drop_succ_of_drop s i c rest h
    simp only [splitWordsAux]
    by_cases hb : b s i = true
    · simp only [hb, ite_true]
      rw [joinWords_cons₂ _ _ (splitWordsAux_ne_nil b s rest (i+1) [c])]
      simp only [List.map_append, List.map_cons]
      rw [ih (i+1) [c] hdrop]
      simp [hc, hc', List.range'_succ, hb]
    · have hb' : b s i = false := by revert hb; cases b s i <;> simp
      simp only [hb']
      rw [if_neg (by simp)]
      rw [ih (i+1) (c :: cur) hdrop]
      simp [hc, hc', List.range'_succ, hb']

theorem boundary_eq (s : List Char) (i : Nat) :
    columnBoundary s i = amendedBoundary s i := by
  have harith : (i < s.length - 1) = (i + 1 < s.length) := propext (by omega)
  rw [Bool.eq_iff_iff]
  simp only [columnBoundary, amendedBoundary, specBoundary, harith,
    Bool.and_eq_true, Bool.or_eq_true, decide_eq_true_eq]
  tauto

/-- The claim's boundary rule differs from the code's only at the final
character (first disjunct with `i = length - 1`). -/
theorem specBoundary_interior (s : List Char) (i : Nat) :
    amendedBoundary s i = (specBoundary s i && decide (i + 1 < s.length)) := rfl

/-- **C7 (amended).** `Column` splits at the claim's letter-case word
boundaries *except at the final character* (where the code's
`i < len(s)-1` guard suppresses the underscore), joins with underscores
and lower-cases; the claim's two examples hold. -/
theorem claim7_column_amended :
    (∀ s : List Char, Column s = specColumnAmended s) ∧
    Column "UserName".data = "user_name".data ∧
    Column "HTTPCode".data = "http_code".data := by
  refine ⟨fun s => ?_, by decide, by decide⟩
  unfold Column specColumnAmended specColumnOf splitWords
  rw [colAux amendedBoundary s s 0 [] (by simp)]
  rw [List.range_eq_range']
  simp only [List.reverse_nil, List.map_nil, List.nil_append]
  simp only [boundary_eq]

/-- **C7 (counterexample).** On `"AbC"` the code emits `"abc"` but the
claim's boundary rule (uppercase preceded by lowercase, with no
final-character exception) would emit `"ab_c"`. -/
theorem claim7_column_counterexample :
    Column "AbC".data ≠ specColumnClaim "AbC".data ∧
    Column "AbC".data = "abc".data ∧
    specColumnClaim "AbC".data = "ab_c".data := by
  refine ⟨by decide, by decide, by decide⟩

/-! ## C1: placeholder/argument alignment -/

theorem countQ_append (a b : List Char) : countQ (a ++ b) = countQ a + countQ b := by
  simp [countQ, List.count_append]

theorem countQ_opFormat (op : String) : countQ (opFormat op).data = 0 := by
  unfold opFormat
  split_ifs <;> rfl

theorem countQ_fmtOp (p : Parser) (f : Field) (op : String)
    (hf : '?' ∉ (p.colName f.name).data) : countQ (p.fmtOp f op).data = 1 := by
  unfold Parser.fmtOp
  repeat rw [String.data_append]
  repeat rw [countQ_append]
  rw [countQ_opFormat]
  simp only [countQ]
  rw [List.count_eq_zero.mpr hf]
  rfl

theorem lookupField_mem (p : Parser) (k : String) (f : Field)
    (h : p.lookupField k = some f) : f ∈ p.fields :=
  List.mem_of_find?_eq_some h

theorem inv_fieldTerm (p : Parser) (f : Field) (st : PState) (first : Bool)
    (k : String) (v : Value) (st' : PState)
    (hf : '?' ∉ (p.colName f.name).data)
    (h : fieldTerm p f st first k v = .ok st') :
    ∃ δ a, st' = { buf := st.buf ++ δ, values := st.values ++ [a] } ∧
      countQ δ = 1 ∧ leafTerm p f k v = .ok a := by
  unfold fieldTerm at h
  unfold leafTerm
  by_cases h0 : k.length = 0
  · cases first <;> simp [h0] at h
  · by_cases hm : k ∈ f.filterOps
    · cases hv : f.kind.validateFn (k.drop 1) v with
      | some e => cases first <;> simp [h0, hm, hv] at h
      | none =>
        cases hc : f.kind.convertFn (k.drop 1) v with
        | some a =>
          cases first
          · simp [h0, hm, hv, hc] at h
            refine ⟨" AND ".data ++ (p.fmtOp f (k.drop 1)).data, a, ?_, ?_,
              by simp [h0, hm, hv, hc]⟩
            · simp [← h, PState.write, PState.push]
            · rw [countQ_append, countQ_fmtOp p f _ hf]
              rfl
          · simp [h0, hm, hv, hc] at h
            refine ⟨(p.fmtOp f (k.drop 1)).data, a, ?_, ?_,
              by simp [h0, hm, hv, hc]⟩
            · simp [← h, PState.write, PState.push]
            · exact countQ_fmtOp p f _ hf
        | none => cases first <;> simp [h0, hm, hv, hc] at h
    · cases first <;> simp [h0, hm] at h

theorem inv_fieldTerms (p : Parser) (f : Field) (l : List (String × Value))
    (hf : '?' ∉ (p.colName f.name).data) :
    ∀ (first : Bool) (st st' : PState),
      fieldTerms p f st first l = .ok st' →
      ∃ δ vs, st' = { buf := st.buf ++ δ, values := st.values ++ vs } ∧
        countQ δ = vs.length ∧ leafTerms p f l = .ok vs := by
  induction l with
  | nil =>
    intro first st st' h
    simp only [fieldTerms, Except.ok.injEq] at h
    exact ⟨[], [], by simp [← h], by simp [countQ], by simp [leafTerms]⟩
  | cons kv rest ih =>
    intro first st st' h
    obtain ⟨k, v⟩ := kv
    simp only [fieldTerms] at h
    cases h1 : fieldTerm p f st first k v with
    | error e => rw [h1] at h; simp at h
    | ok c =>
      rw [h1] at h
      obtain ⟨δ1, a, hc, hq1, hleaf1⟩ := inv_fieldTerm p f st first k v c hf h1
      obtain ⟨δ2, vs, hst', hq2, hleaf2⟩ := ih false c st' h
      refine ⟨δ1 ++ δ2, a :: vs, ?_, ?_, ?_⟩
      · rw [hst', hc]
        simp
      · simp [countQ_append, hq1, hq2]
        omega
      · simp [leafTerms, hleaf1, hleaf2]

theorem inv_fieldShort (p : Parser) (f : Field) (st : PState) (v : Value) (st' : PState)
    (hf : '?' ∉ (p.colName f.name).data)
    (h : fieldShort p f st v = .ok st') :
    ∃ δ a, st' = { buf := st.buf ++ δ, values := st.values ++ [a] } ∧
      countQ δ = 1 ∧ f.kind.validateFn "eq" v = none ∧ f.kind.convertFn "eq" v = some a := by
  unfold fieldShort at h
  cases hv : f.kind.validateFn "eq" v with
  | some e => rw [hv] at h; simp at h
  | none =>
    rw [hv] at h
    cases hc : f.kind.convertFn "eq" v with
    | some a =>
      rw [hc] at h
      simp only [Except.ok.injEq] at h
      exact ⟨(p.fmtOp f "eq").data, a,
        by simp [← h, PState.write, PState.push], countQ_fmtOp p f _ hf, rfl, rfl⟩
    | none => rw [hc] at h; simp at h

theorem inv_fieldExp (p : Parser) (f : Field) (st : PState) (v : Value) (st' : PState)
    (hf : '?' ∉ (p.colName f.name).data)
    (h : fieldExp p f st v = .ok st') :
    ∃ δ vs, st' = { buf := st.buf ++ δ, values := st.values ++ vs } ∧
      countQ δ = vs.length ∧ leafField p f v = .ok vs := by
  cases v with
  | obj terms =>
    simp only [fieldExp] at h
    by_cases hl : terms.length > 1
    · rw [if_pos hl] at h
      cases h1 : fieldTerms p f (st.write "(") true terms with
      | error e => rw [h1] at h; simp at h
      | ok c =>
        rw [h1] at h
        simp only [if_pos hl, Except.ok.injEq] at h
        obtain ⟨δ, vs, hc, hq, hleaf⟩ := inv_fieldTerms p f terms hf true (st.write "(") c h1
        refine ⟨'(' :: (δ ++ [')']), vs, ?_, ?_, by simp [leafField, hleaf]⟩
        · rw [← h, hc]
          simp [PState.write]
        · simp [countQ, List.count_append, List.count_cons] at hq ⊢
          omega
    · rw [if_neg hl] at h
      cases h1 : fieldTerms p f st true terms with
      | error e => rw [h1] at h; simp at h
      | ok c =>
        rw [h1] at h
        simp only [if_neg hl, Except.ok.injEq] at h
        obtain ⟨δ, vs, hc, hq, hleaf⟩ := inv_fieldTerms p f terms hf true st c h1
        exact ⟨δ, vs, by rw [← h, hc], hq, by simp [leafField, hleaf]⟩
  | num q =>
    obtain ⟨δ, a, h1, h2, h3, h4⟩ := inv_fieldShort p f st _ st' hf h
    exact ⟨δ, [a], h1, by simp [h2], by simp [leafField, h3, h4]⟩
  | str s =>
    obtain ⟨δ, a, h1, h2, h3, h4⟩ := inv_fieldShort p f st _ st' hf h
    exact ⟨δ, [a], h1, by simp [h2], by simp [leafField, h3, h4]⟩
  | bool b =>
    obtain ⟨δ, a, h1, h2, h3, h4⟩ := inv_fieldShort p f st _ st' hf h
    exact ⟨δ, [a], h1, by simp [h2], by simp [leafField, h3, h4]⟩
  | null =>
    obtain ⟨δ, a, h1, h2, h3, h4⟩ := inv_fieldShort p f st _ st' hf h
    exact ⟨δ, [a], h1, by simp [h2], by simp [leafField, h3, h4]⟩
  | arr a =>
    obtain ⟨δ, a0, h1, h2, h3, h4⟩ := inv_fieldShort p f st _ st' hf h
    exact ⟨δ, [a0], h1, by simp [h2], by simp [leafField, h3, h4]⟩

theorem countQ_relSep (op : String) :
    countQ ((" " ++ opFormat op ++ " " : String)).data = 0 := by
  repeat rw [String.data_append]
  repeat rw [countQ_append]
  rw [countQ_opFormat]
  decide

mutual

theorem inv_andExp (p : Parser) (l : List (String × Value)) :
    ∀ (first : Bool) (st st' : PState), qFree p →
      andExp p first st l = .ok st' →
      ∃ δ vs, st' = { buf := st.buf ++ δ, values := st.values ++ vs } ∧
        countQ δ = vs.length ∧ leafAnd p l = .ok vs := by
  cases l with
  | nil =>
    intro first st st' hq h
    simp only [andExp, Except.ok.injEq] at h
    exact ⟨[], [], by simp [← h], by simp [countQ], by simp [leafAnd]⟩
  | cons kv rest =>
    intro first st st' hq h
    obtain ⟨k, v⟩ := kv
    simp only [andExp] at h
    obtain ⟨sep, hst1, hsep0⟩ :
        ∃ sep, (if first then st else st.write " AND ")
            = { buf := st.buf ++ sep, values := st.values } ∧ countQ sep = 0 := by
      cases first
      · exact ⟨" AND ".data, by simp [PState.write], by decide⟩
      · exact ⟨[], by simp, rfl⟩
    cases h1 : keyExp p (if first then st else st.write " AND ") k v with
    | error e => rw [h1] at h; simp at h
    | ok c =>
      rw [h1] at h
      obtain ⟨δ1, vs1, hc, hq1, hleaf1⟩ := inv_keyExp p v k _ c hq h1
      obtain ⟨δ2, vs2, hst', hq2, hleaf2⟩ := inv_andExp p rest false c st' hq h
      refine ⟨sep ++ (δ1 ++ δ2), vs1 ++ vs2, ?_, ?_, ?_⟩
      · rw [hst', hc, hst1]
        simp
      · simp [countQ_append, hsep0, hq1, hq2]
      · simp [leafAnd, hleaf1, hleaf2]

theorem inv_keyExp (p : Parser) (v : Value) :
    ∀ (k : String) (st st' : PState), qFree p →
      keyExp p st k v = .ok st' →
      ∃ δ vs, st' = { buf := st.buf ++ δ, values := st.values ++ vs } ∧
        countQ δ = vs.length ∧ leafKey p k v = .ok vs := by
  intro k st st' hq h
  unfold keyExp at h
  unfold leafKey
  by_cases hor : k = p.op "or"
  · rw [if_pos hor] at h
    rw [if_pos hor]
    cases v with
    | arr terms =>
      by_cases hl : terms.length > 1
      · simp only [if_pos hl] at h
        cases h2 : relTerms p "or" true (st.write "(") terms with
        | error e => rw [h2] at h; simp at h
        | ok c =>
          rw [h2] at h
          simp only [Except.ok.injEq] at h
          obtain ⟨δ, vs, hc, hcq, hleaf⟩ := inv_relTerms p terms "or" true _ c hq h2
          refine ⟨'(' :: (δ ++ [')']), vs, ?_, ?_, hleaf⟩
          · rw [← h, hc]
            simp [PState.write]
          · simp [countQ, List.count_append, List.count_cons] at hcq ⊢
            omega
      · simp only [if_neg hl] at h
        cases h2 : relTerms p "or" true st terms with
        | error e => rw [h2] at h; simp at h
        | ok c =>
          rw [h2] at h
          simp only [Except.ok.injEq] at h
          obtain ⟨δ, vs, hc, hcq, hleaf⟩ := inv_relTerms p terms "or" true st c hq h2
          exact ⟨δ, vs, by rw [← h, hc], hcq, hleaf⟩
    | num q => simp at h
    | str s => simp at h
    | bool b => simp at h
    | null => simp at h
    | obj o => simp at h
  · by_cases hand : k = p.op "and"
    · rw [if_neg hor, if_pos hand] at h
      rw [if_neg hor, if_pos hand]
      cases v with
      | arr terms =>
        by_cases hl : terms.length > 1
        · simp only [if_pos hl] at h
          cases h2 : relTerms p "and" true (st.write "(") terms with
          | error e => rw [h2] at h; simp at h
          | ok c =>
            rw [h2] at h
            simp only [Except.ok.injEq] at h
            obtain ⟨δ, vs, hc, hcq, hleaf⟩ := inv_relTerms p terms "and" true _ c hq h2
            refine ⟨'(' :: (δ ++ [')']), vs, ?_, ?_, hleaf⟩
            · rw [← h, hc]
              simp [PState.write]
            · simp [countQ, List.count_append, List.count_cons] at hcq ⊢
              omega
        · simp only [if_neg hl] at h
          cases h2 : relTerms p "and" true st terms with
          | error e => rw [h2] at h; simp at h
          | ok c =>
            rw [h2] at h
            simp only [Except.ok.injEq] at h
            obtain ⟨δ, vs, hc, hcq, hleaf⟩ := inv_relTerms p terms "and" true st c hq h2
            exact ⟨δ, vs, by rw [← h, hc], hcq, hleaf⟩
      | num q => simp at h
      | str s => simp at h
      | bool b => simp at h
      | null => simp at h
      | obj o => simp at h
    · rw [if_neg hor, if_neg hand] at h
      rw [if_neg hor, if_neg hand]
      cases hf : p.lookupField k with
      | none => rw [hf] at h; simp at h
      | some f =>
        rw [hf] at h
        by_cases hfil : f.filterable = true
        · simp only [if_pos hfil] at h
          simp only [if_pos hfil]
          exact inv_fieldExp p f st v st' (hq f (lookupField_mem p k f hf)) h
        · simp only [if_neg hfil] at h
          simp at h

theorem inv_relTerms (p : Parser) (l : List Value) :
    ∀ (op : String) (first : Bool) (st st' : PState), qFree p →
      relTerms p op first st l = .ok st' →
      ∃ δ vs, st' = { buf := st.buf ++ δ, values := st.values ++ vs } ∧
        countQ δ = vs.length ∧ leafRel p op l = .ok vs := by
  cases l with
  | nil =>
    intro op first st st' hq h
    simp only [relTerms, Except.ok.injEq] at h
    exact ⟨[], [], by simp [← h], by simp [countQ], by simp [leafRel]⟩
  | cons t ts =>
    intro op first st st' hq h
    cases t with
    | obj mt =>
      simp only [relTerms] at h
      obtain ⟨sep, hst1, hsep0⟩ :
          ∃ sep, (if first then st else st.write (" " ++ opFormat op ++ " "))
              = { buf := st.buf ++ sep, values := st.values } ∧ countQ sep = 0 := by
        cases first
        · exact ⟨(" " ++ opFormat op ++ " " : String).data,
            by simp [PState.write], countQ_relSep op⟩
        · exact ⟨[], by simp, rfl⟩
      cases h1 : andExp p true (if first then st
          else st.write (" " ++ opFormat op ++ " ")) mt with
      | error e => rw [h1] at h; simp at h
      | ok c =>
        rw [h1] at h
        obtain ⟨δ1, vs1, hc, hq1, hleaf1⟩ := inv_andExp p mt true _ c hq h1
        obtain ⟨δ2, vs2, hst', hq2, hleaf2⟩ := inv_relTerms p ts op false c st' hq h
        refine ⟨sep ++ (δ1 ++ δ2), vs1 ++ vs2, ?_, ?_, ?_⟩
        · rw [hst', hc, hst1]
          simp
        · simp [countQ_append, hsep0, hq1, hq2]
        · simp [leafRel, hleaf1, hleaf2]
    | num q => cases first <;> simp [relTerms] at h
    | str s => cases first <;> simp [relTerms] at h
    | bool b => cases first <;> simp [relTerms] at h
    | null => cases first <;> simp [relTerms] at h
    | arr a => cases first <;> simp [relTerms] at h

end

/-! ## C8: integer validators and converter -/

/-- **C8 (amended).** For an integer-typed field the validator rejects
exactly the JSON numbers with a non-zero fractional part (denominator ≠ 1)
and accepts integral ones; on an integral number whose value fits Go's
64-bit `int` range the converter produces the integer of equal value
(out-of-range integral numbers are still accepted by the validator, but
the converted `int` is implementation-defined and cannot equal them — see
the counterexample); the unsigned validator additionally rejects every
negative number (and accepts non-negative integral ones). -/
theorem claim8_integer_validation (op : String) (q : ℚ) :
    (q.den ≠ 1 → validateInt op (.num q) = some "not an integer" ∧
      validateUInt op (.num q) = some "not an integer") ∧
    (q.den = 1 → validateInt op (.num q) = none) ∧
    (q.den = 1 → intMin ≤ q.num → q.num ≤ intMax →
      convertInt op (.num q) = some (.int q.num) ∧ (q.num : ℚ) = q) ∧
    (q < 0 → ∃ m, validateUInt op (.num q) = some m) ∧
    (q.den = 1 → 0 ≤ q → validateUInt op (.num q) = none) := by
  refine ⟨fun hden => ?_, fun hden => ?_, fun hden hlo hhi => ?_, fun hneg => ?_,
    fun hden hnn => ?_⟩
  · simp [validateInt, validateUInt, hden]
  · simp [validateInt, hden]
  · have hg : gotrunc q = q.num := by simp [gotrunc, hden]
    refine ⟨?_, ?_⟩
    · simp only [convertInt, hg]
      rw [if_pos ⟨hlo, hhi⟩]
    · conv_rhs => rw [← Rat.num_div_den q]
      rw [hden]
      simp
  · by_cases hden : q.den = 1
    · exact ⟨"not an unsigned integer", by simp [validateUInt, validateInt, hden, hneg]⟩
    · exact ⟨"not an integer", by simp [validateUInt, validateInt, hden]⟩
  · have : ¬ q < 0 := not_lt.mpr hnn
    simp [validateUInt, validateInt, hden, this]

/-- **C8 (counterexample).** `1e19` is an exactly representable integral
`float64` (`10^19 = 5^19·2^19`, and `5^19 < 2^53`), so `validateInt`
accepts it; but `10^19` exceeds `intMax`, so Go's `int(1e19)` is an
implementation-defined 64-bit value (gc/amd64: `-2^63`) that cannot equal
`10^19` — the converter does *not* produce the integer of equal value. -/
theorem claim8_integer_validation_counterexample :
    validateInt "eq" (.num ((10 : ℚ) ^ 19)) = none ∧
    ((10 : ℚ) ^ 19).num = 10 ^ 19 ∧
    intMax < 10 ^ 19 ∧
    convertInt "eq" (.num ((10 : ℚ) ^ 19)) ≠ some (.int (10 ^ 19)) := by
  refine ⟨by decide, by decide, by decide, fun h => ?_⟩
  rw [show convertInt "eq" (.num ((10 : ℚ) ^ 19))
    = some (.intOutOfRange ((10 : ℚ) ^ 19)) from rfl] at h
  simp at h

/-- Witness for C8 at `q = 3/2` (rejected) and `q = 2` (accepted,
in range, converted to the integer `2`). -/
theorem claim8_integer_validation_witness :
    validateInt "eq" (.num ⟨3, 2, by decide, by decide⟩) = some "not an integer" ∧
    validateInt "eq" (.num 2) = none ∧
    convertInt "eq" (.num 2) = some (.int 2) ∧
    validateUInt "eq" (.num (-2)) = some "not an unsigned integer" := by
  have h1 := (claim8_integer_validation "eq" ⟨3, 2, by decide, by decide⟩).1 (by decide)
  have h2 := (claim8_integer_validation "eq" 2).2.1 (by decide)
  have h2c := (claim8_integer_validation "eq" 2).2.2.1 (by decide) (by decide) (by decide)
  have h3 := (claim8_integer_validation "eq" (-2)).2.2.2.1 (by decide)
  refine ⟨h1.1, h2, ?_, ?_⟩
  · rw [h2c.1]
    rfl
  · rcases h3 with ⟨m, hm⟩
    rw [show validateUInt "eq" (Value.num (-2)) = some "not an unsigned integer" from rfl]

/-! ## C10: the empty operator key panics out of ParseQuery -/

/-- **C10.** Filtering a filterable field with an operator-object carrying
the empty string as a key does not produce a `ParseError`: the code slices
`opName[1:]` before the membership check, which panics at runtime, and the
`recover` handler re-raises any non-`*ParseError` panic, so the panic
escapes `ParseQuery` (modelled as `Failure.runtimePanic`). -/
theorem claim10_empty_op_key_panics (p : Parser) (k : String) (f : Field) (v : Value)
    (hk : p.lookupField k = some f) (hf : f.filterable = true)
    (hor : k ≠ p.op "or") (hand : k ≠ p.op "and") :
    ParseQuery p { filter := [(k, .obj [("", v)])] } = .error .runtimePanic := by
  simp [ParseQuery, andExp, keyExp, fieldExp, fieldTerms, fieldTerm, hk, hf, hor, hand]

/-- Witness for C10: the sample schema's `name` field with value `"x"`. -/
theorem claim10_empty_op_key_panics_witness :
    ParseQuery sampleParser { filter := [("name", .obj [("", .str "x")])] }
      = .error .runtimePanic :=
  claim10_empty_op_key_panics sampleParser "name" nameField
    (.str "x") rfl rfl (by decide) (by decide)

/-! ## C4: limit and offset validation -/

/-- Inversion of a successful `ParseQuery`: the offset was non-negative,
the limit was zero (and defaulted) or in range (and kept), the offset is
passed through, and the filter compilation succeeded and populated the
expression and argument list. -/
theorem parseQuery_ok_elim (p : Parser) (q : Query) (pr : Params)
    (h : ParseQuery p q = .ok pr) :
    q.offset ≥ 0 ∧
    ((q.limit = 0 ∧ pr.limit = p.defaultLimit) ∨
      (q.limit ≠ 0 ∧ 0 < q.limit ∧ q.limit ≤ p.limitMaxValue ∧ pr.limit = q.limit)) ∧
    pr.offset = q.offset ∧
    (∃ st, andExp p true emptyState q.filter = .ok st ∧
      pr.filterExp = String.mk st.buf ∧ pr.filterArgs = st.values) ∧
    ∃ srt, p.sort q.sort = .ok srt := by
  unfold ParseQuery at h
  by_cases ho : q.offset ≥ 0
  · rw [if_neg (not_not_intro ho)] at h
    refine ⟨ho, ?_⟩
    split at h
    · simp at h
    · next lim heq =>
      split at h
      · simp at h
      · next st hst =>
        split at h
        · simp at h
        · next srt hsrt =>
          split at h
          · simp at h
          · next srt2 hsrt2 =>
            simp only [Except.ok.injEq] at h
            subst h
            refine ⟨?_, rfl, ⟨st, hst, rfl, rfl⟩, srt, hsrt⟩
            by_cases h0 : q.limit = 0
            · left
              rw [if_neg (by simp [h0])] at heq
              simp only [Except.ok.injEq] at heq
              exact ⟨h0, heq.symm⟩
            · right
              rw [if_pos h0] at heq
              by_cases hr : q.limit > 0 ∧ q.limit ≤ p.limitMaxValue
              · rw [if_pos hr] at heq
                simp only [Except.ok.injEq] at heq
                exact ⟨h0, hr.1, hr.2, heq.symm⟩
              · rw [if_neg hr] at heq
                simp at heq
  · rw [if_pos ho] at h
    simp at h

/-- **C4.** `ParseQuery` rejects a negative offset; a zero limit is
replaced by the configured default; a nonzero limit outside
`(0, LimitMaxValue]` is rejected; and on success a nonzero limit and the
offset are passed through unchanged. -/
theorem claim4_limit_offset (p : Parser) (q : Query) :
    (q.offset < 0 → ∃ msg, ParseQuery p q = .error (.parseErr msg)) ∧
    (q.limit = 0 → ∀ pr, ParseQuery p q = .ok pr → pr.limit = p.defaultLimit) ∧
    (q.limit ≠ 0 → ¬ (0 < q.limit ∧ q.limit ≤ p.limitMaxValue) →
      ∃ msg, ParseQuery p q = .error (.parseErr msg)) ∧
    (∀ pr, ParseQuery p q = .ok pr →
      pr.offset = q.offset ∧ (q.limit ≠ 0 → pr.limit = q.limit)) := by
  refine ⟨fun hoff => ?_, fun h0 pr hpr => ?_, fun h0 hr => ?_, fun pr hpr => ?_⟩
  · refine ⟨"offset must be greater than or equal to 0", ?_⟩
    unfold ParseQuery
    rw [if_pos (by omega)]
  · rcases (parseQuery_ok_elim p q pr hpr).2.1 with ⟨_, hl⟩ | ⟨hne, _⟩
    · exact hl
    · exact absurd h0 hne
  · by_cases ho : q.offset ≥ 0
    · refine ⟨"limit must be greater than 0 and less than or equal to "
        ++ toString p.limitMaxValue, ?_⟩
      unfold ParseQuery
      rw [if_neg (not_not_intro ho), if_pos h0, if_neg hr]
    · exact ⟨"offset must be greater than or equal to 0", by
        unfold ParseQuery
        rw [if_pos ho]⟩
  · have h := parseQuery_ok_elim p q pr hpr
    refine ⟨h.2.2.1, fun hne => ?_⟩
    rcases h.2.1 with ⟨h0, _⟩ | ⟨_, _, _, hl⟩
    · exact absurd h0 hne
    · exact hl

/-- Witness for C4: offset `-1` errors; limit `0` defaults to `25`;
limit `101` (above the default maximum `100`) errors; limit `7` with
offset `3` is passed through. -/
theorem claim4_limit_offset_witness :
    (∃ msg, ParseQuery sampleParser { offset := -1 } = .error (.parseErr msg)) ∧
    (∀ pr, ParseQuery sampleParser {} = .ok pr → pr.limit = 25) ∧
    (∃ msg, ParseQuery sampleParser { limit := 101 } = .error (.parseErr msg)) ∧
    (∀ pr, ParseQuery sampleParser { limit := 7, offset := 3 } = .ok pr →
      pr.offset = 3 ∧ pr.limit = 7) := by
  refine ⟨(claim4_limit_offset sampleParser { offset := -1 }).1 (by decide),
    fun pr hpr => (claim4_limit_offset sampleParser {}).2.1 rfl pr hpr,
    (claim4_limit_offset sampleParser { limit := 101 }).2.2.1 (by decide) (by decide),
    fun pr hpr => ?_⟩
  have h := (claim4_limit_offset sampleParser { limit := 7, offset := 3 }).2.2.2 pr hpr
  exact ⟨h.1, h.2 (by decide)⟩

/-- **C1.** For every filter document accepted by `ParseQuery` (over a
schema whose column names contain no `'?'`), the number of placeholder
markers in `Params.FilterExp` equals `len(Params.FilterArgs)`, and the
argument list is exactly the in-order sequence of converted leaf values of
the document (`leafAnd`), i.e. the i-th argument belongs to the i-th
emitted placeholder. -/
theorem claim1_placeholder_alignment (p : Parser) (q : Query) (pr : Params)
    (hq : qFree p) (h : ParseQuery p q = .ok pr) :
    countQ pr.filterExp.data = pr.filterArgs.length ∧
    leafAnd p q.filter = .ok pr.filterArgs := by
  obtain ⟨-, -, -, ⟨st, hst, hexp, hargs⟩, -⟩ := parseQuery_ok_elim p q pr h
  obtain ⟨δ, vs, hdec, hcq, hleaf⟩ := inv_andExp p q.filter true emptyState st hq hst
  have hbuf : st.buf = δ := by rw [hdec]; simp [emptyState]
  have hvals : st.values = vs := by rw [hdec]; simp [emptyState]
  constructor
  · rw [hexp, hargs]
    rw [show (String.mk st.buf).data = st.buf from rfl, hbuf, hvals]
    exact hcq
  · rw [hargs, hvals]
    exact hleaf

/-- Witness for C1: the spec's end-to-end example on the sample schema:
`name = ? AND age = ? AND (age <> ? OR age <> ?)` with arguments
`["foo", 12, 10, 20]`. -/
theorem claim1_placeholder_alignment_witness :
    countQ ("name = ? AND age = ? AND (age <> ? OR age <> ?)" : String).data
      = [Arg.raw (.str "foo"), Arg.int 12, Arg.int 10, Arg.int 20].length ∧
    leafAnd sampleParser
      [("name", .str "foo"), ("age", .num 12),
       ("$or", .arr [.obj [("age", .obj [("$neq", .num 10)])],
                     .obj [("age", .obj [("$neq", .num 20)])]])]
      = .ok [Arg.raw (.str "foo"), Arg.int 12, Arg.int 10, Arg.int 20] :=
  claim1_placeholder_alignment sampleParser
    { filter := [("name", .str "foo"), ("age", .num 12),
        ("$or", .arr [.obj [("age", .obj [("$neq", .num 10)])],
                      .obj [("age", .obj [("$neq", .num 20)])]])] }
    { limit := 25, offset := 0, select := "", sort := "",
      filterExp := "name = ? AND age = ? AND (age <> ? OR age <> ?)",
      filterArgs := [Arg.raw (.str "foo"), Arg.int 12, Arg.int 10, Arg.int 20] }
    (by unfold qFree; decide) rfl



/-! ## C5: single ParseError, no partial results (amended: panic inputs
excepted) -/

theorem length_ne_zero_of_ne_empty (k : String) (hk : k ≠ "") : ¬ k.length = 0 := by
  obtain ⟨l⟩ := k
  cases l with
  | nil => exact absurd rfl hk
  | cons c rest => simp [String.length]

theorem np_fieldTerm (p : Parser) (f : Field) (st : PState) (first : Bool)
    (k : String) (v : Value) (hk : k ≠ "") :
    fieldTerm p f st first k v ≠ .error .runtimePanic := by
  intro hcontra
  unfold fieldTerm at hcontra
  have h0 : ¬ k.length = 0 := length_ne_zero_of_ne_empty k hk
  by_cases hm : k ∈ f.filterOps
  · cases hv : f.kind.validateFn (k.drop 1) v with
    | some e => cases first <;> simp [h0, hm, hv] at hcontra
    | none =>
      obtain ⟨a, ha⟩ := convert_total_of_validate f.kind _ v hv
      cases first <;> simp [h0, hm, hv, ha] at hcontra
  · cases first <;> simp [h0, hm] at hcontra

theorem np_fieldTerms (p : Parser) (f : Field) (l : List (String × Value)) :
    ∀ (first : Bool) (st : PState), (∀ kv ∈ l, kv.1 ≠ "") →
      fieldTerms p f st first l ≠ .error .runtimePanic := by
  induction l with
  | nil => intro first st _ hcontra; simp [fieldTerms] at hcontra
  | cons kv rest ih =>
    intro first st hk hcontra
    obtain ⟨k, v⟩ := kv
    simp only [fieldTerms] at hcontra
    cases h1 : fieldTerm p f st first k v with
    | error e =>
      rw [h1] at hcontra
      simp only [Except.error.injEq] at hcontra
      subst hcontra
      exact np_fieldTerm p f st first k v (hk (k, v) (by simp)) h1
    | ok c =>
      rw [h1] at hcontra
      exact ih false c (fun x hx => hk x (by simp [hx])) hcontra

theorem np_fieldShort (p : Parser) (f : Field) (st : PState) (v : Value) :
    fieldShort p f st v ≠ .error .runtimePanic := by
  intro hcontra
  unfold fieldShort at hcontra
  cases hv : f.kind.validateFn "eq" v with
  | some e => simp [hv] at hcontra
  | none =>
    obtain ⟨a, ha⟩ := convert_total_of_validate f.kind _ v hv
    simp [hv, ha] at hcontra

theorem np_fieldExp (p : Parser) (f : Field) (st : PState) (v : Value)
    (hv : ∀ terms, v = .obj terms → ∀ kv ∈ terms, kv.1 ≠ "") :
    fieldExp p f st v ≠ .error .runtimePanic := by
  intro hcontra
  cases v with
  | obj terms =>
    simp only [fieldExp] at hcontra
    cases h1 : fieldTerms p f (if terms.length > 1 then st.write "(" else st) true terms with
    | error e =>
      rw [h1] at hcontra
      simp only [Except.error.injEq] at hcontra
      subst hcontra
      exact np_fieldTerms p f terms true _ (hv terms rfl) h1
    | ok c => rw [h1] at hcontra; simp at hcontra
  | num q => exact np_fieldShort p f st _ hcontra
  | str s => exact np_fieldShort p f st _ hcontra
  | bool b => exact np_fieldShort p f st _ hcontra
  | null => exact np_fieldShort p f st _ hcontra
  | arr a => exact np_fieldShort p f st _ hcontra

mutual

theorem np_andExp (p : Parser) (l : List (String × Value)) :
    ∀ (first : Bool) (st : PState), noPanicAnd p l = true →
      andExp p first st l ≠ .error .runtimePanic := by
  cases l with
  | nil => intro first st _ hcontra; simp [andExp] at hcontra
  | cons kv rest =>
    intro first st hnp hcontra
    obtain ⟨k, v⟩ := kv
    simp only [noPanicAnd, Bool.and_eq_true] at hnp
    simp only [andExp] at hcontra
    cases h1 : keyExp p (if first then st else st.write " AND ") k v with
    | error e =>
      rw [h1] at hcontra
      simp only [Except.error.injEq] at hcontra
      subst hcontra
      exact np_keyExp p v k _ hnp.1 h1
    | ok c =>
      rw [h1] at hcontra
      exact np_andExp p rest false c hnp.2 hcontra
termination_by sizeOf l

theorem np_keyExp (p : Parser) (v : Value) :
    ∀ (k : String) (st : PState), noPanicKey p k v = true →
      keyExp p st k v ≠ .error .runtimePanic := by
  intro k st hnp hcontra
  unfold keyExp at hcontra
  unfold noPanicKey at hnp
  by_cases hor : k = p.op "or"
  · rw [if_pos hor] at hcontra
    rw [if_pos (Or.inl hor)] at hnp
    cases v with
    | arr terms =>
      replace hcontra :
          (match relTerms p "or" true
              (if terms.length > 1 then st.write "(" else st) terms with
           | Except.error e => Except.error e
           | Except.ok st2 =>
             Except.ok (if terms.length > 1 then st2.write ")" else st2))
            = Except.error Failure.runtimePanic := hcontra
      replace hnp : noPanicRel p terms = true := hnp
      cases h1 : relTerms p "or" true
          (if terms.length > 1 then st.write "(" else st) terms with
      | error e =>
        rw [h1] at hcontra
        simp only [Except.error.injEq] at hcontra
        subst hcontra
        exact np_relTerms p terms "or" true _ hnp h1
      | ok c => rw [h1] at hcontra; simp at hcontra
    | num q => simp at hcontra
    | str s => simp at hcontra
    | bool b => simp at hcontra
    | null => simp at hcontra
    | obj o => simp at hcontra
  · by_cases hand : k = p.op "and"
    · rw [if_neg hor, if_pos hand] at hcontra
      rw [if_pos (Or.inr hand)] at hnp
      cases v with
      | arr terms =>
        replace hcontra :
            (match relTerms p "and" true
                (if terms.length > 1 then st.write "(" else st) terms with
             | Except.error e => Except.error e
             | Except.ok st2 =>
               Except.ok (if terms.length > 1 then st2.write ")" else st2))
              = Except.error Failure.runtimePanic := hcontra
        replace hnp : noPanicRel p terms = true := hnp
        cases h1 : relTerms p "and" true
            (if terms.length > 1 then st.write "(" else st) terms with
        | error e =>
          rw [h1] at hcontra
          simp only [Except.error.injEq] at hcontra
          subst hcontra
          exact np_relTerms p terms "and" true _ hnp h1
        | ok c => rw [h1] at hcontra; simp at hcontra
      | num q => simp at hcontra
      | str s => simp at hcontra
      | bool b => simp at hcontra
      | null => simp at hcontra
      | obj o => simp at hcontra
    · rw [if_neg hor, if_neg hand] at hcontra
      rw [if_neg (by simp [hor, hand])] at hnp
      cases hf : p.lookupField k with
      | none => rw [hf] at hcontra; simp at hcontra
      | some f =>
        rw [hf] at hcontra
        rw [hf] at hnp
        by_cases hfil : f.filterable = true
        · simp only [if_pos hfil] at hcontra hnp
          refine np_fieldExp p f st v ?_ hcontra
          intro terms hterms kv hkv
          subst hterms
          simp only [noPanicTermsOf, List.all_eq_true] at hnp
          have := hnp kv hkv
          simpa using this
        · simp only [if_neg hfil] at hcontra
          simp at hcontra
termination_by sizeOf v

theorem np_relTerms (p : Parser) (l : List Value) :
    ∀ (op : String) (first : Bool) (st : PState), noPanicRel p l = true →
      relTerms p op first st l ≠ .error .runtimePanic := by
  cases l with
  | nil => intro op first st _ hcontra; simp [relTerms] at hcontra
  | cons t ts =>
    intro op first st hnp hcontra
    cases t with
    | obj mt =>
      replace hnp : (noPanicAnd p mt && noPanicRel p ts) = true := hnp
      rw [Bool.and_eq_true] at hnp
      simp only [relTerms] at hcontra
      cases h1 : andExp p true
          (if first then st else st.write (" " ++ opFormat op ++ " ")) mt with
      | error e =>
        rw [h1] at hcontra
        simp only [Except.error.injEq] at hcontra
        subst hcontra
        exact np_andExp p mt true _ hnp.1 h1
      | ok c =>
        rw [h1] at hcontra
        exact np_relTerms p ts op false c hnp.2 hcontra
    | num q => cases first <;> simp [relTerms] at hcontra
    | str s => cases first <;> simp [relTerms] at hcontra
    | bool b => cases first <;> simp [relTerms] at hcontra
    | null => cases first <;> simp [relTerms] at hcontra
    | arr a => cases first <;> simp [relTerms] at hcontra
termination_by sizeOf l

end

theorem sortOne_error_parseErr (p : Parser) (e : String) (f : Failure)
    (h : sortOne p e = .error f) : ∃ m, f = .parseErr m := by
  obtain ⟨l⟩ := e
  cases l with
  | nil =>
    unfold sortOne at h
    rw [if_pos rfl] at h
    simp only [Except.error.injEq] at h
    exact ⟨_, h.symm⟩
  | cons c rest =>
    rw [sortOne_eq] at h
    simp only at h
    cases hf : p.lookupField (if c = '+' ∨ c = '-' then ⟨rest⟩ else ⟨c :: rest⟩) with
    | none =>
      rw [hf] at h
      simp only [Except.error.injEq] at h
      exact ⟨_, h.symm⟩
    | some f0 =>
      rw [hf] at h
      by_cases hs : f0.sortable = true
      · simp [hs] at h
      · simp only [if_neg hs] at h
        simp only [Except.error.injEq] at h
        exact ⟨_, h.symm⟩

theorem sortList_error_parseErr (p : Parser) (l : List String) (f : Failure)
    (h : sortList p l = .error f) : ∃ m, f = .parseErr m := by
  induction l with
  | nil => simp [sortList] at h
  | cons e rest ih =>
    simp only [sortList] at h
    cases h1 : sortOne p e with
    | error e0 =>
      rw [h1] at h
      simp only [Except.error.injEq] at h
      subst h
      exact sortOne_error_parseErr p e _ h1
    | ok s =>
      rw [h1] at h
      cases h2 : sortList p rest with
      | error e0 =>
        rw [h2] at h
        simp only [Except.error.injEq] at h
        subst h
        exact ih h2
      | ok ss => rw [h2] at h; simp at h

theorem sort_error_parseErr (p : Parser) (l : List String) (f : Failure)
    (h : p.sort l = .error f) : ∃ m, f = .parseErr m := by
  unfold Parser.sort at h
  cases h1 : sortList p l with
  | error e0 =>
    rw [h1] at h
    simp only [Except.error.injEq] at h
    subst h
    exact sortList_error_parseErr p l _ h1
  | ok ss => rw [h1] at h; simp at h

theorem ParseQuery_no_panic (p : Parser) (q : Query)
    (h : noPanicAnd p q.filter = true) :
    ParseQuery p q ≠ .error .runtimePanic := by
  intro hcontra
  unfold ParseQuery at hcontra
  by_cases ho : q.offset ≥ 0
  · rw [if_neg (not_not_intro ho)] at hcontra
    split at hcontra
    · next e heq =>
      split at heq
      · split at heq <;> simp_all
      · simp_all
    · next lim heq =>
      split at hcontra
      · next e heq2 =>
        simp only [Except.error.injEq] at hcontra
        subst hcontra
        exact np_andExp p q.filter true emptyState h heq2
      · next st heq2 =>
        split at hcontra
        · next e heq3 =>
          simp only [Except.error.injEq] at hcontra
          subst hcontra
          obtain ⟨m, hm⟩ := sort_error_parseErr p q.sort _ heq3
          simp at hm
        · next srt heq3 =>
          split at hcontra
          · next e heq4 =>
            simp only [Except.error.injEq] at hcontra
            subst hcontra
            split at heq4
            · obtain ⟨m, hm⟩ := sort_error_parseErr p p.defaultSort _ heq4
              simp at hm
            · simp at heq4
          · next srt2 heq4 => simp at hcontra
  · rw [if_pos ho] at hcontra
    simp at hcontra

/-- **C5 (amended).** For every query whose filter document contains no
empty operator key under a filterable field (so the walk cannot hit the
`opName[1:]` runtime panic), `ParseQuery` either succeeds or returns
exactly one `ParseError` — by the shape of the result, never a partially
populated `Params` alongside an error, and never an aggregation of several
violations.  (The excluded inputs panic out of `ParseQuery` without
returning at all; see the counterexample.) -/
theorem claim5_single_parse_error (p : Parser) (q : Query)
    (h : noPanicAnd p q.filter = true) :
    (∃ pr, ParseQuery p q = .ok pr) ∨
    (∃ msg, ParseQuery p q = .error (.parseErr msg)) := by
  cases hpq : ParseQuery p q with
  | error e =>
    cases e with
    | parseErr m => exact Or.inr ⟨m, rfl⟩
    | runtimePanic => exact absurd hpq (ParseQuery_no_panic p q h)
  | ok pr => exact Or.inl ⟨pr, rfl⟩

/-- **C5 (counterexample).** On the empty-operator-key input, parsing
fails but no `ParseError` is returned: the runtime panic escapes
`ParseQuery` (the Go call never returns), violating the claim as stated. -/
theorem claim5_single_parse_error_counterexample :
    ParseQuery sampleParser { filter := [("age", .obj [("", .num 1)])] }
      = .error .runtimePanic ∧
    ∀ msg, ParseQuery sampleParser { filter := [("age", .obj [("", .num 1)])] }
      ≠ .error (.parseErr msg) := by
  refine ⟨rfl, fun msg hmsg => ?_⟩
  rw [show ParseQuery sampleParser { filter := [("age", .obj [("", .num 1)])] }
    = .error .runtimePanic from rfl] at hmsg
  simp at hmsg

/-- Witness for C5 (amended) on a panic-free failing input (unknown key). -/
theorem claim5_single_parse_error_witness :
    (∃ pr, ParseQuery sampleParser { filter := [("nope", .num 1)] } = .ok pr) ∨
    (∃ msg, ParseQuery sampleParser { filter := [("nope", .num 1)] }
      = .error (.parseErr msg)) :=
  claim5_single_parse_error sampleParser { filter := [("nope", .num 1)] } (by decide)



/-! ## C6: rejection of unknown fields/operators (amended: non-empty
operator tokens) -/

theorem fieldTerm_ok_mem (p : Parser) (f : Field) (st : PState) (first : Bool)
    (k : String) (v : Value) (st' : PState)
    (h : fieldTerm p f st first k v = .ok st') : k ∈ f.filterOps := by
  unfold fieldTerm at h
  by_cases h0 : k.length = 0
  · cases first <;> simp [h0] at h
  · by_cases hm : k ∈ f.filterOps
    · exact hm
    · cases first <;> simp [h0, hm] at h

theorem viol_fieldTerms (p : Parser) (f : Field) (l : List (String × Value)) :
    ∀ (first : Bool) (st st' : PState), (∃ kv ∈ l, kv.1 ∉ f.filterOps) →
      fieldTerms p f st first l ≠ .ok st' := by
  induction l with
  | nil => intro first st st' hex _; simp at hex
  | cons kv rest ih =>
    intro first st st' hex hcontra
    obtain ⟨k, v⟩ := kv
    simp only [fieldTerms] at hcontra
    cases h1 : fieldTerm p f st first k v with
    | error e => rw [h1] at hcontra; simp at hcontra
    | ok c =>
      rw [h1] at hcontra
      rcases hex with ⟨kv0, hmem, hnotin⟩
      rcases List.mem_cons.mp hmem with heq | hmem'
      · subst heq
        exact hnotin (fieldTerm_ok_mem p f st first k v c h1)
      · exact ih false c st' ⟨kv0, hmem', hnotin⟩ hcontra

mutual

theorem viol_andExp (p : Parser) (l : List (String × Value)) :
    ∀ (first : Bool) (st st' : PState), hasViolAnd p l = true →
      andExp p first st l ≠ .ok st' := by
  cases l with
  | nil => intro first st st' hv _; simp [hasViolAnd] at hv
  | cons kv rest =>
    intro first st st' hv hcontra
    obtain ⟨k, v⟩ := kv
    replace hv : (hasViolKey p k v || hasViolAnd p rest) = true := hv
    rw [Bool.or_eq_true] at hv
    simp only [andExp] at hcontra
    cases h1 : keyExp p (if first then st else st.write " AND ") k v with
    | error e => rw [h1] at hcontra; simp at hcontra
    | ok c =>
      rw [h1] at hcontra
      rcases hv with hv | hv
      · exact viol_keyExp p v k _ c hv h1
      · exact viol_andExp p rest false c st' hv hcontra
termination_by sizeOf l

theorem viol_keyExp (p : Parser) (v : Value) :
    ∀ (k : String) (st st' : PState), hasViolKey p k v = true →
      keyExp p st k v ≠ .ok st' := by
  intro k st st' hv hcontra
  unfold keyExp at hcontra
  unfold hasViolKey at hv
  by_cases hor : k = p.op "or"
  · rw [if_pos hor] at hcontra
    rw [if_pos (Or.inl hor)] at hv
    cases v with
    | arr terms =>
      replace hcontra :
          (match relTerms p "or" true
              (if terms.length > 1 then st.write "(" else st) terms with
           | Except.error e => Except.error e
           | Except.ok st2 =>
             Except.ok (if terms.length > 1 then st2.write ")" else st2))
            = Except.ok st' := hcontra
      replace hv : hasViolRel p terms = true := hv
      cases h1 : relTerms p "or" true
          (if terms.length > 1 then st.write "(" else st) terms with
      | error e => rw [h1] at hcontra; simp at hcontra
      | ok c => exact viol_relTerms p terms "or" true _ c hv h1
    | num q => simp at hcontra
    | str s => simp at hcontra
    | bool b => simp at hcontra
    | null => simp at hcontra
    | obj o => simp at hcontra
  · by_cases hand : k = p.op "and"
    · rw [if_neg hor, if_pos hand] at hcontra
      rw [if_pos (Or.inr hand)] at hv
      cases v with
      | arr terms =>
        replace hcontra :
            (match relTerms p "and" true
                (if terms.length > 1 then st.write "(" else st) terms with
             | Except.error e => Except.error e
             | Except.ok st2 =>
               Except.ok (if terms.length > 1 then st2.write ")" else st2))
              = Except.ok st' := hcontra
        replace hv : hasViolRel p terms = true := hv
        cases h1 : relTerms p "and" true
            (if terms.length > 1 then st.write "(" else st) terms with
        | error e => rw [h1] at hcontra; simp at hcontra
        | ok c => exact viol_relTerms p terms "and" true _ c hv h1
      | num q => simp at hcontra
      | str s => simp at hcontra
      | bool b => simp at hcontra
      | null => simp at hcontra
      | obj o => simp at hcontra
    · rw [if_neg hor, if_neg hand] at hcontra
      rw [if_neg (by simp [hor, hand])] at hv
      cases hf : p.lookupField k with
      | none => rw [hf] at hcontra; simp at hcontra
      | some f =>
        rw [hf] at hcontra
        rw [hf] at hv
        by_cases hfil : f.filterable = true
        · simp only [if_pos hfil] at hcontra
          replace hv : violTermsOf f v = true := by simpa [hfil] using hv
          cases v with
          | obj terms =>
            replace hv : terms.any (fun kv => decide (kv.1 ∉ f.filterOps)) = true := hv
            rw [List.any_eq_true] at hv
            obtain ⟨kv0, hmem, hbad⟩ := hv
            simp only [fieldExp] at hcontra
            cases h1 : fieldTerms p f
                (if terms.length > 1 then st.write "(" else st) true terms with
            | error e => rw [h1] at hcontra; simp at hcontra
            | ok c =>
              exact viol_fieldTerms p f terms true _ c
                ⟨kv0, hmem, by simpa using hbad⟩ h1
          | num q => simp [violTermsOf] at hv
          | str s => simp [violTermsOf] at hv
          | bool b => simp [violTermsOf] at hv
          | null => simp [violTermsOf] at hv
          | arr a => simp [violTermsOf] at hv
        · simp only [if_neg hfil] at hcontra
          simp at hcontra
termination_by sizeOf v

theorem viol_relTerms (p : Parser) (l : List Value) :
    ∀ (op : String) (first : Bool) (st st' : PState), hasViolRel p l = true →
      relTerms p op first st l ≠ .ok st' := by
  cases l with
  | nil => intro op first st st' hv _; simp [hasViolRel] at hv
  | cons t ts =>
    intro op first st st' hv hcontra
    cases t with
    | obj mt =>
      replace hv : (hasViolAnd p mt || hasViolRel p ts) = true := hv
      rw [Bool.or_eq_true] at hv
      simp only [relTerms] at hcontra
      cases h1 : andExp p true
          (if first then st else st.write (" " ++ opFormat op ++ " ")) mt with
      | error e => rw [h1] at hcontra; simp at hcontra
      | ok c =>
        rw [h1] at hcontra
        rcases hv with hv | hv
        · exact viol_andExp p mt true _ c hv h1
        · exact viol_relTerms p ts op false c st' hv hcontra
    | num q => cases first <;> simp [relTerms] at hcontra
    | str s => cases first <;> simp [relTerms] at hcontra
    | bool b => cases first <;> simp [relTerms] at hcontra
    | null => cases first <;> simp [relTerms] at hcontra
    | arr a => cases first <;> simp [relTerms] at hcontra
termination_by sizeOf l

end

theorem sortOne_ok_lookup (p : Parser) (e : String) (s : String)
    (h : sortOne p e = .ok s) : ∃ f, p.lookupField (stripDir e) = some f := by
  obtain ⟨l⟩ := e
  cases l with
  | nil =>
    unfold sortOne at h
    rw [if_pos rfl] at h
    simp at h
  | cons c rest =>
    rw [sortOne_eq] at h
    rw [stripDir_cons]
    by_cases hpm : c = '+' ∨ c = '-'
    · simp only [if_pos hpm] at h ⊢
      cases hf : p.lookupField ⟨rest⟩ with
      | none => rw [hf] at h; simp at h
      | some f => exact ⟨f, rfl⟩
    · simp only [if_neg hpm] at h ⊢
      cases hf : p.lookupField ⟨c :: rest⟩ with
      | none => rw [hf] at h; simp at h
      | some f => exact ⟨f, rfl⟩

theorem sortList_ok_lookup (p : Parser) (l : List String) (ss : List String)
    (h : sortList p l = .ok ss) :
    ∀ e ∈ l, ∃ f, p.lookupField (stripDir e) = some f := by
  induction l generalizing ss with
  | nil => intro e he; simp at he
  | cons x rest ih =>
    intro e he
    simp only [sortList] at h
    cases h1 : sortOne p x with
    | error e0 => rw [h1] at h; simp at h
    | ok s =>
      rw [h1] at h
      cases h2 : sortList p rest with
      | error e0 => rw [h2] at h; simp at h
      | ok ss0 =>
        rcases List.mem_cons.mp he with heq | hmem
        · subst heq
          exact sortOne_ok_lookup p e s h1
        · exact ih ss0 h2 e hmem

/-- **C6 (amended).** For every filter document all of whose operator
tokens are non-empty (the empty token instead panics — see the
counterexample), containing an unrecognized key, a non-filterable field,
an operator token outside the referenced field's declared set, or a
non-array `$and`/`$or` value — or for any sort list referencing a field
absent from the schema — `ParseQuery` returns a `ParseError` and no
`Params`. -/
theorem claim6_unknown_rejected (p : Parser) (q : Query)
    (hnp : noPanicAnd p q.filter = true)
    (hbad : hasViolAnd p q.filter = true ∨
      ∃ e ∈ q.sort, p.lookupField (stripDir e) = none) :
    ∃ msg, ParseQuery p q = .error (.parseErr msg) := by
  cases hpq : ParseQuery p q with
  | error e =>
    cases e with
    | parseErr m => exact ⟨m, rfl⟩
    | runtimePanic => exact absurd hpq (ParseQuery_no_panic p q hnp)
  | ok pr =>
    exfalso
    obtain ⟨-, -, -, ⟨st, hst, -, -⟩, srt, hsrt⟩ := parseQuery_ok_elim p q pr hpq
    rcases hbad with hv | ⟨e, hmem, hnone⟩
    · exact viol_andExp p q.filter true emptyState st hv hst
    · unfold Parser.sort at hsrt
      cases h1 : sortList p q.sort with
      | error e0 => rw [h1] at hsrt; simp at hsrt
      | ok ss =>
        obtain ⟨f, hf⟩ := sortList_ok_lookup p q.sort ss h1 e hmem
        rw [hf] at hnone
        simp at hnone

/-- **C6 (counterexample).** The empty string is an operator token outside
`age`'s declared operator set, yet `ParseQuery` does not return an error:
it panics (the call never returns), because `opName[1:]` is sliced before
the membership check. -/
theorem claim6_unknown_rejected_counterexample :
    ¬ ("" ∈ ageField.filterOps) ∧
    ParseQuery sampleParser { filter := [("age", .obj [("", .bool true)])] }
      = .error .runtimePanic ∧
    ∀ msg, ParseQuery sampleParser { filter := [("age", .obj [("", .bool true)])] }
      ≠ .error (.parseErr msg) := by
  refine ⟨by decide, rfl, fun msg h => ?_⟩
  rw [show ParseQuery sampleParser { filter := [("age", .obj [("", .bool true)])] }
    = .error .runtimePanic from rfl] at h
  simp at h

/-- Witness for C6 (amended): an unrecognized filter key and a sort on a
missing field. -/
theorem claim6_unknown_rejected_witness :
    (∃ msg, ParseQuery sampleParser { filter := [("foo", .num 1)] }
      = .error (.parseErr msg)) ∧
    (∃ msg, ParseQuery sampleParser { sort := ["bar"] }
      = .error (.parseErr msg)) :=
  ⟨claim6_unknown_rejected sampleParser { filter := [("foo", .num 1)] }
      (by decide) (Or.inl (by decide)),
   claim6_unknown_rejected sampleParser { sort := ["bar"] }
      (by decide) (Or.inr ⟨"bar", by decide, rfl⟩)⟩


end Rql
